import Mathlib

/-!
Verification of the Local Model Inference Service Layer of AgentFeedback.

Python strings are modelled as `List Char`; machine-level collaborators
(the llama tokenizer, the sampler, sha256, chat templating, the HTTP layer)
are abstracted as function parameters, while every string/list manipulation
performed by the repository's own code is embedded faithfully.
-/

namespace AgentFB

/-- The whitespace characters Python `str.strip()` removes (ASCII fragment). -/
def pyWs (c : Char) : Bool :=
  c = ' ' || c = '\t' || c = '\n' || c = '\r' || c = Char.ofNat 11 || c = Char.ofNat 12

/-- Python `s.strip()`: drop whitespace from both ends. -/
def pyStrip (l : List Char) : List Char :=
  ((l.dropWhile pyWs).reverse.dropWhile pyWs).reverse

/-- Python `pat in text` together with `text.split(pat)[0]`: `some before`
when `pat` occurs in `l` and `before` is the segment strictly before the
first occurrence, `none` when `pat` does not occur. -/
def splitBeforeFirst (pat : List Char) : List Char → Option (List Char)
  | [] => if pat.isEmpty then some [] else none
  | c :: rest =>
    if pat.isPrefixOf (c :: rest) then some []
    else
      match splitBeforeFirst pat rest with
      | some before => some (c :: before)
      | none => none

/-- The external llama tokenizer: `llm.tokenize(text, add_bos=False, special=True)`
and `llm.detokenize(tokens).decode("utf-8", errors="ignore")`. -/
structure Tokenizer where
  tok : List Char → List Nat
  detok : List Nat → List Char

/-- `KvCacheClient._generate_tokens` (kv_client.py lines 160-188), with the
token iterator `llm.generate(...)` modelled as the list `stream` of tokens it
would yield in order and `out` the accumulator `out` of the Python loop.
After appending a token the loop detokenizes the tokens collected so far;
when the configured stop string (a truthy `stop`) occurs in that text it
truncates at the first occurrence and returns the re-tokenized truncation,
otherwise it stops once `max_tokens` tokens have been collected. -/
def genFromStream (tk : Tokenizer) (stop : Option (List Char)) (maxTokens : Nat)
    (out : List Nat) : List Nat → List Nat
  | [] => out
  | t :: rest =>
    match stop with
    | some s =>
      if s.isEmpty then
        if maxTokens ≤ (out ++ [t]).length then out ++ [t]
        else genFromStream tk stop maxTokens (out ++ [t]) rest
      else
        match splitBeforeFirst s (tk.detok (out ++ [t])) with
        | some before => tk.tok before
        | none =>
          if maxTokens ≤ (out ++ [t]).length then out ++ [t]
          else genFromStream tk stop maxTokens (out ++ [t]) rest
    | none =>
      if maxTokens ≤ (out ++ [t]).length then out ++ [t]
      else genFromStream tk stop maxTokens (out ++ [t]) rest

/-- The text `chat_with_cache` / `chat_no_cache` return for a given generated
token stream: detokenize the tokens `_generate_tokens` collected, then apply
Python `str.strip()` (kv_client.py lines 136-137 and 157-158). -/
def generationText (tk : Tokenizer) (stop : Option (List Char)) (maxTokens : Nat)
    (stream : List Nat) : List Char :=
  pyStrip (tk.detok (genFromStream tk stop maxTokens [] stream))

/-- A concrete well-behaved tokenizer (one token per character), used to
instantiate the abstract tokenizer on concrete inputs. -/
def charTok : Tokenizer where
  tok := fun s => s.map Char.toNat
  detok := fun l => l.map Char.ofNat

/-- A concrete model token stream decoding to "a !x" under `charTok`. -/
def c1Stream : List Nat := ("a !x".data).map Char.toNat

/-- The `KvCacheHandle` dataclass (kv_client.py lines 19-24). -/
structure KvCacheHandle where
  paragraphHash : List Char
  prefixTokens : List Nat
  prefixLen : Nat
  stop : Option (List Char)

/-- The collaborators of `KvCacheClient` that live outside the repository:
the llama tokenizer, a deterministic sampler `step` giving the next token
from the current cache contents (claim C2 assumes a deterministic model),
the chatml formatter `format_chatml` (returning a prompt and a stop string)
and sha256. The model's mutable state is its attention cache, modelled as
the list of evaluated tokens: `llm.n_tokens` is that list's length,
`llm.eval` appends to it, `llm.reset` clears it, and the rewind assignment
`llm.n_tokens = p` truncates it to its first `p` entries. -/
structure KvEnv where
  tk : Tokenizer
  tokBos : List Char → List Nat
  step : List Nat → Nat
  fmtMessages : List (List Char × List Char) → List Char × Option (List Char)
  sha256hex : List Char → List Char
  thinkingMode : List Char

/-- `KvCacheClient._inject_thinking_mode` (kv_client.py lines 72-77). -/
def injectThinkingMode (env : KvEnv) (system : List Char) : List Char :=
  if env.thinkingMode = "no_think".data then "/no_think\n".data ++ system
  else if env.thinkingMode = "think".data then "/think\n".data ++ system
  else system

/-- The `_ASSISTANT_PREFIX` constant of kv_client.py. -/
def assistantTag : List Char := "<|im_start|>assistant\n".data

/-- `KvCacheClient.ingest_paragraph` (kv_client.py lines 86-104): strip the
paragraph, hash it, format it as a system message, cut a trailing assistant
tag, tokenize with bos, reset the model and evaluate the prefix tokens once.
Returns the handle and the resulting cache (whose length is `prefix_len`). -/
def ingestParagraph (env : KvEnv) (paragraph : List Char) : KvCacheHandle × List Nat :=
  let p := pyStrip paragraph
  let h := if p.isEmpty then [] else env.sha256hex p
  let system := injectThinkingMode env ("PARAGRAPH:\n".data ++ p)
  let fs := env.fmtMessages [("system".data, system)]
  let prompt :=
    if assistantTag.isSuffixOf fs.1 then fs.1.take (fs.1.length - assistantTag.length)
    else fs.1
  let prefixToks := env.tokBos prompt
  (⟨h, prefixToks, prefixToks.length, fs.2⟩, prefixToks)

/-- `KvCacheClient._build_user_prompt` (kv_client.py lines 106-112): join the
stripped system text and, when `extra` is non-empty, the stripped extra text
with a blank line; format as a single user message and tokenize without bos. -/
def buildUserPrompt (env : KvEnv) (system extra : List Char) : List Nat × Option (List Char) :=
  let content :=
    if extra.isEmpty then pyStrip system
    else pyStrip system ++ '\n' :: '\n' :: pyStrip extra
  let fs := env.fmtMessages [("user".data, content)]
  (env.tk.tok fs.1, fs.2)

/-- The body of `_generate_tokens` iterating `llm.generate`: `llm.generate`
first evaluates the incoming batch, then repeatedly samples a token from the
cache, yields it, and evaluates it into the cache only when the consuming
loop asks for another token — so when `_generate_tokens` returns or breaks,
the last yielded token is left unevaluated and the cache is unchanged in
that final iteration. `fuel` bounds the iteration count (the loop always
returns through the stop-string or max_tokens checks before exhausting
`maxTokens + 1` iterations). Returns the collected tokens and the cache. -/
def genStepLoop (env : KvEnv) (stop : Option (List Char)) (maxTokens : Nat) :
    Nat → List Nat → List Nat → List Nat × List Nat
  | 0, cache, out => (out, cache)
  | fuel + 1, cache, out =>
    let t := env.step cache
    match stop with
    | some s =>
      if s.isEmpty then
        if maxTokens ≤ (out ++ [t]).length then (out ++ [t], cache)
        else genStepLoop env stop maxTokens fuel (cache ++ [t]) (out ++ [t])
      else
        match splitBeforeFirst s (env.tk.detok (out ++ [t])) with
        | some before => (env.tk.tok before, cache)
        | none =>
          if maxTokens ≤ (out ++ [t]).length then (out ++ [t], cache)
          else genStepLoop env stop maxTokens fuel (cache ++ [t]) (out ++ [t])
    | none =>
      if maxTokens ≤ (out ++ [t]).length then (out ++ [t], cache)
      else genStepLoop env stop maxTokens fuel (cache ++ [t]) (out ++ [t])

/-- `_generate_tokens` on the live model: evaluate the input batch, then run
the sampling loop. -/
def generateTokensStep (env : KvEnv) (input : List Nat) (stop : Option (List Char))
    (maxTokens : Nat) (cache : List Nat) : List Nat × List Nat :=
  genStepLoop env stop maxTokens (maxTokens + 1) (cache ++ input) []

/-- `KvCacheClient.chat_with_cache` (kv_client.py lines 139-158): rewind the
logical cache length to `handle.prefix_len` (without clearing the cache),
build and evaluate the user turn, generate, detokenize and strip. Returns
the text and the model cache left behind. -/
def chatWithCache (env : KvEnv) (h : KvCacheHandle) (system extra : List Char)
    (maxTokens : Nat) (cache : List Nat) : List Char × List Nat :=
  let rewound := cache.take h.prefixLen
  let up := buildUserPrompt env system extra
  let r := generateTokensStep env up.1 up.2 maxTokens rewound
  (pyStrip (env.tk.detok r.1), r.2)

/-- Outcome of the readiness wait in `LlamaServerProcess.start`. -/
inductive StartOutcome where
  | ok
  | startupFailure (procOut procErr : List Char)
  | timeout
deriving DecidableEq

/-- The polling loop of `LlamaServerProcess.start` (server_process.py lines
79-111), discretized: iteration `i` begins at tick `i` (every iteration takes
at least one time unit — a quarter-second sleep plus bounded request
timeouts) and `deadline` is the tick at which `time.time() < deadline` first
fails. `exited i` is whether `self._proc.poll()` observes the process exited
at iteration `i`, `ready i` whether the minimal chat completion probe gets
an HTTP 200 response, and `pout`/`perr` what `communicate` captures. The
fallback health/models probes of the loop body have no effect on control
flow and are omitted. -/
def startPollLoop (exited ready : Nat → Bool) (pout perr : Nat → List Char)
    (deadline : Nat) (i : Nat) : StartOutcome :=
  if i < deadline then
    if exited i then .startupFailure (pout i) (perr i)
    else if ready i then .ok
    else startPollLoop exited ready pout perr deadline (i + 1)
  else .timeout
termination_by deadline - i
decreasing_by simp_wf; omega

/-- A backend process that has already exited at every poll instant. -/
def alwaysExited : Nat → Bool := fun _ => true

/-- A readiness probe that never receives HTTP 200. -/
def neverReady : Nat → Bool := fun _ => false

/-- Captured output of the exited process (empty streams). -/
def noOutput : Nat → List Char := fun _ => []

/-- The OS process owned by the supervisor: whether it is currently alive,
and whether it would survive the graceful `terminate` beyond the 5-second
grace period (so that the force `kill` is needed). -/
structure ProcHandle where
  alive : Bool
  survivesTerminate : Bool

/-- `LlamaServerProcess.is_running` (server_process.py lines 19-20): the
handle holds a process and `poll()` reports it has not exited. -/
def isRunning : Option ProcHandle → Bool
  | none => false
  | some p => p.alive

/-- The signals `stop` sends to the OS process. -/
inductive StopAction where
  | terminate
  | kill
deriving DecidableEq

/-- `LlamaServerProcess.stop` (server_process.py lines 113-122): no-op when
not running; otherwise send the graceful terminate, wait up to the grace
period, force-kill on `TimeoutExpired`, and clear `_proc`. Returns the new
handle state together with the signals sent. -/
def stopProc (s : Option ProcHandle) : Option ProcHandle × List StopAction :=
  if isRunning s then
    match s with
    | some p =>
      if p.survivesTerminate then (none, [.terminate, .kill])
      else (none, [.terminate])
    | none => (none, [])
  else (s, [])

/-- Configuration values as they appear in the resolver dicts: Python ints,
floats (decimal literals, modelled exactly as rationals), strings, paths,
bools, string lists, dicts and None. -/
inductive CfgVal where
  | intV : Int → CfgVal
  | numV : ℚ → CfgVal
  | strV : String → CfgVal
  | pathV : String → CfgVal
  | boolV : Bool → CfgVal
  | listV : List String → CfgVal
  | dictV : List (String × String) → CfgVal
  | noneV
deriving DecidableEq

/-- Python dict assignment `values[key] = val`: replace the binding of `k`
in place, appending when absent (in the resolver `k` is always present). -/
def updateAssoc {V : Type} (l : List (String × V)) (k : String) (v : V) :
    List (String × V) :=
  match l with
  | [] => [(k, v)]
  | (k0, v0) :: rest =>
    if k0 = k then (k, v) :: rest else (k0, v0) :: updateAssoc rest k v

/-- Python `dict[...]`/`dict.get`: first binding of `k` (the resolver dicts
bind each key once). -/
def lookupAssoc {V : Type} (l : List (String × V)) (k : String) : Option V :=
  match l with
  | [] => none
  | (k0, v0) :: rest => if k0 = k then some v0 else lookupAssoc rest k

/-- Layering of two optional lookups: the first when present, else the
fallback. -/
def overlay {V : Type} (first fallback : Option V) : Option V :=
  match first with
  | some w => some w
  | none => fallback

/-- Python `", ".join(keys)`. -/
def joinCommaSep : List String → String
  | [] => ""
  | [x] => x
  | x :: y :: rest => x ++ ", " ++ joinCommaSep (y :: rest)

/-- Python `sorted(set(overrides.keys()) - set(values.keys()))`. -/
def unknownKeys {V : Type} (values overrides : List (String × V)) : List String :=
  (((overrides.map Prod.fst).filter
    (fun k => ¬ (values.map Prod.fst).contains k)).dedup).insertionSort (· < ·)

/-- `_apply_overrides` (config_resolver.py lines 46-54): a falsy (None or
empty) override map returns the base unchanged; any override key missing
from the base dict's keys raises `ValueError("Unknown override keys: ...")`
listing the sorted unknown keys; otherwise each override binding is assigned
into the base dict, which is returned. -/
def applyOverrides {V : Type} (values : List (String × V))
    (overrides : List (String × V)) : Except String (List (String × V)) :=
  if overrides.isEmpty then .ok values
  else if (unknownKeys values overrides).isEmpty then
    .ok (overrides.foldl (fun acc kv => updateAssoc acc kv.1 kv.2) values)
  else
    .error ("Unknown override keys: " ++ joinCommaSep (unknownKeys values overrides))

/-- The global request defaults of the app config (`llama.default_*`,
config_resolver.py lines 105-115), as abstract configuration values. -/
structure RequestGlobals where
  maxTokens : CfgVal
  temperature : CfgVal
  topP : CfgVal
  topK : CfgVal
  repeatPenalty : CfgVal
  seed : CfgVal
  stop : CfgVal
  responseFormat : CfgVal
  stream : CfgVal

/-- The base dict `values` of `resolve_request_config`. -/
def requestValues (g : RequestGlobals) : List (String × CfgVal) :=
  [("max_tokens", g.maxTokens), ("temperature", g.temperature),
   ("top_p", g.topP), ("top_k", g.topK), ("repeat_penalty", g.repeatPenalty),
   ("seed", g.seed), ("stop", g.stop), ("response_format", g.responseFormat),
   ("stream", g.stream)]

/-- `TASK_DEFAULTS` (task_config.py lines 5-19); Python float literals are
modelled as the exact rationals they denote. -/
def taskDefaults : List (String × List (String × CfgVal)) :=
  [("answer", [("max_tokens", .intV 128), ("temperature", .numV 0)]),
   ("stream_answer", [("max_tokens", .intV 128), ("temperature", .numV 0)]),
   ("metadata_extraction", [("max_tokens", .intV 1024), ("temperature", .numV 0)]),
   ("grammar_correction", [("max_tokens", .intV 128), ("temperature", .numV 0)]),
   ("topic_sentence_generate", [("max_tokens", .intV 1024), ("temperature", .numV 0.5)]),
   ("topic_sentence_analyze", [("max_tokens", .intV 1024), ("temperature", .numV 0)]),
   ("cause_effect_feedback", [("max_tokens", .intV 512), ("temperature", .numV 0.2)]),
   ("compare_contrast_feedback", [("max_tokens", .intV 512), ("temperature", .numV 0.2)]),
   ("hedging_feedback", [("max_tokens", .intV 512), ("temperature", .numV 0.2)]),
   ("content_compare", [("max_tokens", .intV 512), ("temperature", .numV 0.2)]),
   ("content_filter", [("max_tokens", .intV 256), ("temperature", .numV 0)]),
   ("conclusion_feedback", [("max_tokens", .intV 512), ("temperature", .numV 0.2)]),
   ("summarize_personalize", [("max_tokens", .intV 512), ("temperature", .numV 0.2)])]

/-- `resolve_request_config` (config_resolver.py lines 98-124): start from
the global request defaults, apply the task's registered defaults when an
entry exists for the task name (and is truthy, i.e. non-empty), then apply
the explicit overrides. The resulting dict is the field set of the returned
`LlmRequestConfig`. -/
def resolveRequestConfig (g : RequestGlobals) (task : String)
    (overrides : List (String × CfgVal)) : Except String (List (String × CfgVal)) :=
  let values := requestValues g
  let afterTask :=
    match lookupAssoc taskDefaults task with
    | some td => if td.isEmpty then Except.ok values else applyOverrides values td
    | none => Except.ok values
  match afterTask with
  | .error e => .error e
  | .ok v1 => applyOverrides v1 overrides

/-- The entries of the server-launch dict built by `resolve_server_config`
(config_resolver.py lines 63-81), as abstract values (the path expansion and
resolution of the path entries happens while building them, before any
override machinery runs). -/
structure ServerGlobals where
  serverBin : CfgVal
  modelPath : CfgVal
  modelAlias : CfgVal
  host : CfgVal
  port : CfgVal
  nCtx : CfgVal
  nThreads : CfgVal
  nGpuLayers : CfgVal
  nBatch : CfgVal
  seed : CfgVal
  ropeFreqBase : CfgVal
  ropeFreqScale : CfgVal
  mmprojPath : CfgVal

/-- The base dict `values` of `resolve_server_config`. -/
def serverValues (g : ServerGlobals) : List (String × CfgVal) :=
  [("server_bin", g.serverBin), ("model_path", g.modelPath),
   ("model_alias", g.modelAlias), ("host", g.host), ("port", g.port),
   ("n_ctx", g.nCtx), ("n_threads", g.nThreads),
   ("n_gpu_layers", g.nGpuLayers), ("n_batch", g.nBatch), ("seed", g.seed),
   ("rope_freq_base", g.ropeFreqBase), ("rope_freq_scale", g.ropeFreqScale),
   ("mmproj_path", g.mmprojPath)]

/-- The post-override coercion of `resolve_server_config` (lines 85-88): a
value for a path key that is neither None nor already a Path is wrapped in
`Path(val).expanduser().resolve()`, whose filesystem normalization is the
abstract `normPath`. (Values of other shapes would make the Path constructor
raise and are outside the modelled fragment.) -/
def coercePathVal (normPath : String → String) : CfgVal → CfgVal
  | .noneV => .noneV
  | .pathV p => .pathV p
  | .strV s => .pathV (normPath s)
  | v => v

/-- The loop applying `coercePathVal` to the three path keys. -/
def coercePaths (normPath : String → String) (l : List (String × CfgVal)) :
    List (String × CfgVal) :=
  l.map (fun kv =>
    if kv.1 = "server_bin" ∨ kv.1 = "model_path" ∨ kv.1 = "mmproj_path" then
      (kv.1, coercePathVal normPath kv.2)
    else kv)

/-- `resolve_server_config` (config_resolver.py lines 57-95): apply the
caller's overrides to the server dict, coerce the path entries, and fail
when `server_bin` is None; the surviving dict is the field set of the
returned `LlamaServerConfig`. -/
def resolveServerConfig (normPath : String → String) (g : ServerGlobals)
    (overrides : List (String × CfgVal)) : Except String (List (String × CfgVal)) :=
  match applyOverrides (serverValues g) overrides with
  | .error e => .error e
  | .ok v =>
    let v2 := coercePaths normPath v
    if lookupAssoc v2 "server_bin" = some CfgVal.noneV then
      .error "llama_server_bin_path is required for server backend"
    else .ok v2

/-- Concrete global request defaults used on concrete inputs. -/
def reqGlobals0 : RequestGlobals :=
  ⟨.intV 64, .numV 1, .noneV, .noneV, .noneV, .noneV, .noneV, .noneV, .noneV⟩

/-- Concrete server dict entries used on concrete inputs. -/
def srvGlobals0 : ServerGlobals :=
  ⟨.pathV "/bin/llama-server", .pathV "/models/m.gguf", .strV "alias",
   .strV "127.0.0.1", .intV 8080, .intV 4096, .noneV, .noneV, .noneV,
   .noneV, .noneV, .noneV, .noneV⟩

/-- The registered defaults of the grammar_correction task. -/
def gcTaskDefaults : List (String × CfgVal) :=
  [("max_tokens", .intV 128), ("temperature", .numV 0)]

/-- A legitimate call-site override map. -/
def ovExample : List (String × CfgVal) := [("temperature", .numV 1)]

/-- An override map with a key unknown to both resolvers. -/
def badOverride : List (String × CfgVal) := [("bogus_key", .intV 1)]

/-- JSON values as Python's `json` module produces them; numbers keep their
raw source text (none of the verified claims compares numeric magnitudes),
objects keep their key/value pairs in source order. -/
inductive JVal where
  | null
  | bool (b : Bool)
  | num (raw : List Char)
  | str (s : List Char)
  | arr (elems : List JVal)
  | obj (fields : List (List Char × JVal))

instance : Inhabited JVal := ⟨JVal.null⟩

/-- JSON inter-token whitespace (Python json: space, tab, newline, return). -/
def jsonWs (c : Char) : Bool :=
  c = ' ' || c = '\t' || c = '\n' || c = '\r'

/-- Skip JSON whitespace. -/
def skipJsonWs (s : List Char) : List Char := s.dropWhile jsonWs

/-- The single-character string escapes of the JSON grammar. -/
def escapeChar : Char → Option Char
  | '"' => some '"'
  | '\\' => some '\\'
  | '/' => some '/'
  | 'b' => some (Char.ofNat 8)
  | 'f' => some (Char.ofNat 12)
  | 'n' => some '\n'
  | 'r' => some '\r'
  | 't' => some '\t'
  | _ => none

/-- Value of one hexadecimal digit. -/
def hexVal (c : Char) : Option Nat :=
  if c.isDigit then some (c.toNat - 48)
  else if 'a' ≤ c ∧ c ≤ 'f' then some (c.toNat - 87)
  else if 'A' ≤ c ∧ c ≤ 'F' then some (c.toNat - 55)
  else none

/-- Four hexadecimal digits (the XXXX of a \\uXXXX escape). -/
def hex4 : List Char → Option (Nat × List Char)
  | a :: b :: c :: d :: rest =>
    match hexVal a, hexVal b, hexVal c, hexVal d with
    | some x, some y, some z, some w => some (((x * 16 + y) * 16 + z) * 16 + w, rest)
    | _, _, _, _ => none
  | _ => none

/-- Python `json.decoder.py_scanstring` (strict mode): the input starts just
after the opening quote; returns the decoded content and the remainder after
the closing quote. Control characters are rejected; \\uXXXX escapes combine
surrogate pairs (a lone surrogate, which Python keeps as a surrogate code
unit, has no `Char` counterpart and maps to NUL here). -/
def parseJsonString : Nat → List Char → Option (List Char × List Char)
  | 0, _ => none
  | _ + 1, [] => none
  | fuel + 1, c :: rest =>
    if c = '"' then some ([], rest)
    else if c = '\\' then
      match rest with
      | [] => none
      | e :: r2 =>
        if e = 'u' then
          match hex4 r2 with
          | none => none
          | some (n1, r3) =>
            if 0xD800 ≤ n1 ∧ n1 ≤ 0xDBFF then
              match r3 with
              | '\\' :: 'u' :: r4 =>
                match hex4 r4 with
                | some (n2, r5) =>
                  if 0xDC00 ≤ n2 ∧ n2 ≤ 0xDFFF then
                    match parseJsonString fuel r5 with
                    | some (content, r6) =>
                      some (Char.ofNat (0x10000 + (n1 - 0xD800) * 0x400 + (n2 - 0xDC00))
                        :: content, r6)
                    | none => none
                  else
                    match parseJsonString fuel r3 with
                    | some (content, r6) => some (Char.ofNat n1 :: content, r6)
                    | none => none
                | none =>
                  match parseJsonString fuel r3 with
                  | some (content, r6) => some (Char.ofNat n1 :: content, r6)
                  | none => none
              | _ =>
                match parseJsonString fuel r3 with
                | some (content, r6) => some (Char.ofNat n1 :: content, r6)
                | none => none
            else
              match parseJsonString fuel r3 with
              | some (content, r6) => some (Char.ofNat n1 :: content, r6)
              | none => none
        else
          match escapeChar e with
          | some ec =>
            match parseJsonString fuel r2 with
            | some (content, r6) => some (ec :: content, r6)
            | none => none
          | none => none
    else if c.toNat < 32 then none
    else
      match parseJsonString fuel rest with
      | some (content, r6) => some (c :: content, r6)
      | none => none

/-- Python json NUMBER_RE: `(-?(?:0|[1-9]\d*))(\.\d+)?([eE][-+]?\d+)?`,
returning the matched raw text and the remainder; `none` when the integer
part does not match. -/
def parseJsonNumber (s : List Char) : Option (List Char × List Char) :=
  let signed : List Char × List Char :=
    match s with
    | '-' :: rest => (['-'], rest)
    | _ => ([], s)
  match signed.2 with
  | [] => none
  | c :: rest =>
    if c = '0' ∨ (c.isDigit ∧ c ≠ '0') then
      let intDigits := if c = '0' then ([] : List Char) else rest.takeWhile Char.isDigit
      let afterInt := if c = '0' then rest else rest.dropWhile Char.isDigit
      let fracPair : List Char × List Char :=
        match afterInt with
        | '.' :: r2 =>
          let ds := r2.takeWhile Char.isDigit
          if ds.isEmpty then ([], afterInt) else ('.' :: ds, r2.dropWhile Char.isDigit)
        | _ => ([], afterInt)
      let expPair : List Char × List Char :=
        match fracPair.2 with
        | e :: r2 =>
          if e = 'e' ∨ e = 'E' then
            match r2 with
            | g :: r3 =>
              if g = '+' ∨ g = '-' then
                let ds := r3.takeWhile Char.isDigit
                if ds.isEmpty then ([], fracPair.2)
                else (e :: g :: ds, r3.dropWhile Char.isDigit)
              else
                let ds := r2.takeWhile Char.isDigit
                if ds.isEmpty then ([], fracPair.2)
                else (e :: ds, r2.dropWhile Char.isDigit)
            | [] => ([], fracPair.2)
          else ([], fracPair.2)
        | [] => ([], fracPair.2)
      some (signed.1 ++ c :: intDigits ++ fracPair.1 ++ expPair.1, expPair.2)
    else none

mutual

/-- Python `json.scanner.py_make_scanner`'s `_scan_once`: dispatch on the
first character — string, object, array, the three literals, a number, then
the NaN/Infinity extensions. `fuel` bounds the recursion depth (one unit per
grammar production; callers pass at least the input length plus one). -/
def parseJsonValue : Nat → List Char → Option (JVal × List Char)
  | 0, _ => none
  | _ + 1, [] => none
  | fuel + 1, c :: rest =>
    if c = '"' then
      match parseJsonString (fuel + 1) rest with
      | some (content, r2) => some (.str content, r2)
      | none => none
    else if c = '{' then parseJsonObj fuel rest
    else if c = '[' then parseJsonArr fuel rest
    else if "null".data.isPrefixOf (c :: rest) then some (.null, (c :: rest).drop 4)
    else if "true".data.isPrefixOf (c :: rest) then some (.bool true, (c :: rest).drop 4)
    else if "false".data.isPrefixOf (c :: rest) then some (.bool false, (c :: rest).drop 5)
    else
      match parseJsonNumber (c :: rest) with
      | some (raw, r2) => some (.num raw, r2)
      | none =>
        if "NaN".data.isPrefixOf (c :: rest) then some (.num "NaN".data, (c :: rest).drop 3)
        else if "Infinity".data.isPrefixOf (c :: rest) then
          some (.num "Infinity".data, (c :: rest).drop 8)
        else if "-Infinity".data.isPrefixOf (c :: rest) then
          some (.num "-Infinity".data, (c :: rest).drop 9)
        else none

/-- Python `json.decoder.JSONObject` after the opening brace: skip
whitespace; an immediate closing brace gives the empty object, a quote
starts the members, anything else is an error. -/
def parseJsonObj : Nat → List Char → Option (JVal × List Char)
  | 0, _ => none
  | fuel + 1, s =>
    match skipJsonWs s with
    | '}' :: rest => some (.obj [], rest)
    | '"' :: rest => parseJsonMembers fuel rest []
    | _ => none

/-- The member loop of `JSONObject`: the input starts just after the opening
quote of a key. -/
def parseJsonMembers : Nat → List Char → List (List Char × JVal) →
    Option (JVal × List Char)
  | 0, _, _ => none
  | fuel + 1, s, acc =>
    match parseJsonString (fuel + 1) s with
    | none => none
    | some (key, s1) =>
      match skipJsonWs s1 with
      | ':' :: s3 =>
        match parseJsonValue fuel (skipJsonWs s3) with
        | none => none
        | some (v, s4) =>
          match skipJsonWs s4 with
          | '}' :: rest => some (.obj (acc ++ [(key, v)]), rest)
          | ',' :: s6 =>
            match skipJsonWs s6 with
            | '"' :: s7 => parseJsonMembers fuel s7 (acc ++ [(key, v)])
            | _ => none
          | _ => none
      | _ => none

/-- Python `json.decoder.JSONArray` after the opening bracket. -/
def parseJsonArr : Nat → List Char → Option (JVal × List Char)
  | 0, _ => none
  | fuel + 1, s =>
    match skipJsonWs s with
    | ']' :: rest => some (.arr [], rest)
    | s1 => parseJsonElems fuel s1 []

/-- The element loop of `JSONArray`. -/
def parseJsonElems : Nat → List Char → List JVal → Option (JVal × List Char)
  | 0, _, _ => none
  | fuel + 1, s, acc =>
    match parseJsonValue fuel s with
    | none => none
    | some (v, s1) =>
      match skipJsonWs s1 with
      | ']' :: rest => some (.arr (acc ++ [v]), rest)
      | ',' :: s3 => parseJsonElems fuel (skipJsonWs s3) (acc ++ [v])
      | _ => none

end

/-- `decoder.raw_decode(text[idx:])` as `_extract_last_json_object` uses it:
the number of characters the parsed value consumes, `none` on a decode
error. -/
def rawDecodeLen (s : List Char) : Option Nat :=
  match parseJsonValue (s.length + 1) s with
  | some (_, rest) => some (s.length - rest.length)
  | none => none

/-- Python `json.loads`: skip leading whitespace, parse one value, and
require only whitespace to follow. -/
def jsonLoads (s : List Char) : Option JVal :=
  let s1 := skipJsonWs s
  match parseJsonValue (s1.length + 1) s1 with
  | some (v, rest) => if (skipJsonWs rest).isEmpty then some v else none
  | none => none

/-- The scanning loop of `_extract_last_json_object` (kv_client.py lines
224-237): at every index whose character is a brace, attempt a raw decode;
when it succeeds and the stripped slice is non-empty remember it, always
continuing with the next index. -/
def extractLastJsonLoop (last : Option (List Char)) : List Char → Option (List Char)
  | [] => last
  | c :: rest =>
    if c = '{' then
      match rawDecodeLen (c :: rest) with
      | some n =>
        let raw := pyStrip ((c :: rest).take n)
        extractLastJsonLoop (if raw.isEmpty then last else some raw) rest
      | none => extractLastJsonLoop last rest
    else extractLastJsonLoop last rest

/-- `_extract_last_json_object`. -/
def extractLastJsonObject (text : List Char) : Option (List Char) :=
  extractLastJsonLoop none text

/-- The parse attempt `_extract_last_json_object` makes at one suffix of the
text: the stripped raw slice when the suffix starts with a brace, the raw
decode succeeds and the slice strips to something non-empty. -/
def parseAttemptAt : List Char → Option (List Char)
  | [] => none
  | c :: rest =>
    if c = '{' then
      match rawDecodeLen (c :: rest) with
      | some n =>
        let raw := pyStrip ((c :: rest).take n)
        if raw.isEmpty then none else some raw
      | none => none
    else none

/-- All successful parse attempts, in scanning order. -/
def parseAttempts (text : List Char) : List (List Char) :=
  text.tails.filterMap parseAttemptAt

/-- The JSON-extraction step of `json_schema_chat_with_cache` /
`json_schema_chat_no_cache` (kv_client.py lines 190-221) applied to the
generated text: the extracted last JSON object, or the
`ValueError("Invalid JSON from KV model: ...")` carrying the raw text. -/
def jsonSchemaChatText (text : List Char) : Except (List Char) (List Char) :=
  match extractLastJsonObject text with
  | none => .error ("Invalid JSON from KV model: ".data ++ text)
  | some j => .ok j

/-- Python truthiness of a JSON value (None, False, 0, empty string/list/
dict are falsy). A number is zero iff its mantissa has digits and none of
them is nonzero. -/
def pyTruthy : JVal → Bool
  | .null => false
  | .bool b => b
  | .num raw =>
    !((raw.takeWhile (fun c => c ≠ 'e' ∧ c ≠ 'E')).any Char.isDigit &&
      (raw.takeWhile (fun c => c ≠ 'e' ∧ c ≠ 'E')).all
        (fun c => !c.isDigit || c = '0'))
  | .str s => !s.isEmpty
  | .arr l => !l.isEmpty
  | .obj f => !f.isEmpty

/-- The fields of a JSON object, when the value is one (Python would raise
an AttributeError calling `.get` on anything else). -/
def asObj : JVal → Option (List (List Char × JVal))
  | .obj f => some f
  | _ => none

/-- Python `dict.get(k)` on an object built from parsed pairs (a later
duplicate key wins, as in `dict(pairs)`); `none` stands for Python `None`
(missing key). -/
def jDictGet (fields : List (List Char × JVal)) (k : List Char) : Option JVal :=
  match fields.reverse.find? (fun kv => kv.1 = k) with
  | some kv => some kv.2
  | none => none

/-- Python `expr or default` where `expr` is a `.get` result: the value when
present and truthy, the default otherwise (`None`, i.e. a missing key or a
JSON null, is falsy). -/
def pyOrJ (v : Option JVal) (dflt : JVal) : JVal :=
  match v with
  | some x => if pyTruthy x then x else dflt
  | none => dflt

/-- The per-event body of `chat_stream` (client.py lines 120-128) applied to
one parsed SSE event: take the first element of `choices or [{}]`, read
`delta.content`, falling back to `message.content` when the delta has no
content; return the chunk to yield (`some` only when the chunk is truthy),
or the error Python would raise on a malformed frame shape. -/
def sseChunk (event : JVal) : Except (List Char) (Option JVal) :=
  match asObj event with
  | none => .error ("event.get on a non-object".data)
  | some ev =>
    match pyOrJ (jDictGet ev ("choices".data)) (.arr [.obj []]) with
    | .arr [] => .ok none
    | .arr (c0 :: _) =>
      match asObj c0 with
      | none => .error ("choice.get on a non-object".data)
      | some ch =>
        match asObj (pyOrJ (jDictGet ch ("delta".data)) (.obj [])) with
        | none => .error ("delta.get on a non-object".data)
        | some dl =>
          match jDictGet dl ("content".data) with
          | some (JVal.null) =>
            match asObj (pyOrJ (jDictGet ch ("message".data)) (.obj [])) with
            | none => .error ("message.get on a non-object".data)
            | some mf =>
              match jDictGet mf ("content".data) with
              | some v => .ok (if pyTruthy v then some v else none)
              | none => .ok none
          | none =>
            match asObj (pyOrJ (jDictGet ch ("message".data)) (.obj [])) with
            | none => .error ("message.get on a non-object".data)
            | some mf =>
              match jDictGet mf ("content".data) with
              | some v => .ok (if pyTruthy v then some v else none)
              | none => .ok none
          | some v => .ok (if pyTruthy v then some v else none)
    | _ => .error ("indexing a non-list choices".data)

/-- `OpenAICompatChatClient.chat_stream` (client.py lines 87-128) applied to
the sequence of raw SSE lines the response yields: skip empty lines, strip,
keep only lines starting with `data:`, stop at a literal `[DONE]` payload or
at end of stream, skip lines whose payload is not JSON, and yield each
event's truthy chunk in arrival order. -/
def chatStreamLines : List (List Char) → Except (List Char) (List JVal)
  | [] => .ok []
  | rawLine :: rest =>
    if rawLine.isEmpty then chatStreamLines rest
    else
      let line := pyStrip rawLine
      if ¬ (("data:".data).isPrefixOf line) then chatStreamLines rest
      else
        let dataStr := pyStrip (line.drop 5)
        if dataStr = "[DONE]".data then .ok []
        else
          match jsonLoads dataStr with
          | none => chatStreamLines rest
          | some event =>
            match sseChunk event with
            | .error e => .error e
            | .ok none => chatStreamLines rest
            | .ok (some v) =>
              match chatStreamLines rest with
              | .ok l => .ok (v :: l)
              | .error e => .error e

/-- The stub SSE frame carrying the delta "Hi". -/
def sseFrame1 : List Char :=
  "data: \x7b\"choices\":[\x7b\"delta\":\x7b\"content\":\"Hi\"\x7d\x7d]\x7d".data

/-- The stub SSE frame carrying the delta " there". -/
def sseFrame2 : List Char :=
  "data: \x7b\"choices\":[\x7b\"delta\":\x7b\"content\":\" there\"\x7d\x7d]\x7d".data

/-- The terminating sentinel frame. -/
def sseDone : List Char := "data: [DONE]".data

/-- `OpenAICompatChatClient.chat_message` (client.py lines 63-85) applied to
the JSON body of an HTTP 200 response: `choices = data.get("choices") or []`,
`message = choices[0].get("message") if choices else None`, and when the
message is falsy the default assistant message with empty content and no
reasoning; otherwise the message's role (or "assistant"), content (or "")
and `reasoning_content`. The result triple is (role, content,
reasoning_content); errors are the exceptions Python would raise on
non-object shapes. -/
def chatMessageFromBody (body : JVal) : Except (List Char) (JVal × JVal × JVal) :=
  match asObj body with
  | none => .error ("data.get on a non-object".data)
  | some data =>
    match pyOrJ (jDictGet data ("choices".data)) (.arr []) with
    | .arr [] => .ok (.str ("assistant".data), .str [], .null)
    | .arr (c0 :: _) =>
      match asObj c0 with
      | none => .error ("choice.get on a non-object".data)
      | some c0f =>
        match jDictGet c0f ("message".data) with
        | none => .ok (.str ("assistant".data), .str [], .null)
        | some m =>
          if pyTruthy m then
            match asObj m with
            | none => .error ("message.get on a non-object".data)
            | some mf =>
              .ok (pyOrJ (jDictGet mf ("role".data)) (.str ("assistant".data)),
                   pyOrJ (jDictGet mf ("content".data)) (.str []),
                   (jDictGet mf ("reasoning_content".data)).getD .null)
          else .ok (.str ("assistant".data), .str [], .null)
    | _ => .error ("indexing a non-list choices".data)

/-- A response body without a "choices" key. -/
def c10BodyA : List (List Char × JVal) := [("id".data, .str ("x".data))]

/-- A response body with an empty choices list. -/
def c10BodyB : List (List Char × JVal) := [("choices".data, .arr [])]

/-- The first choice of `c10BodyC`: an object without a "message" key. -/
def c10Choice : JVal := .obj [("index".data, .num ['0'])]

/-- A response body whose first choice has no message object. -/
def c10BodyC : List (List Char × JVal) := [("choices".data, .arr [c10Choice])]

/-- The `LlmMessage` dataclass (interfaces/llm/messages.py). -/
structure LlmMessage where
  role : List Char
  content : List Char
  reasoningContent : Option (List Char)

/-- A sentence terminator of the grammar-correction fallback scan. -/
def isSentTerm (c : Char) : Bool := c = '.' || c = '!' || c = '?'

/-- One step of the character loop of `correct_sentences`
(grammar_correction.py lines 27-33): the state is
`(last_sentence, sentence)`; append the character to `sentence`, and at a
terminator promote the stripped sentence (when non-empty) to
`last_sentence` and reset `sentence`. -/
def sentFold (acc : List Char × List Char) (ch : Char) : List Char × List Char :=
  if isSentTerm ch then
    let cand := pyStrip (acc.2 ++ [ch])
    (if cand.isEmpty then acc.1 else cand, [])
  else (acc.1, acc.2 ++ [ch])

/-- The reasoning fallback of `correct_sentences` (lines 25-36): scan the
thinking text; if no terminator produced a candidate, fall back to the
stripped trailing remainder (or the whole stripped thinking text when that
remainder is empty). -/
def lastCompleteSentence (thinking : List Char) : List Char :=
  let r := thinking.foldl sentFold ([], [])
  if r.1.isEmpty then pyStrip (if r.2.isEmpty then thinking else r.2) else r.1

/-- The last complete sentence of a text, read off directly: the stripped
segment ending at the text's last '.', '!' or '?' and starting after the
preceding terminator; `none` when no terminator occurs. -/
def lastCompleteSentenceSpec (s : List Char) : Option (List Char) :=
  match s.reverse.dropWhile (fun c => !(isSentTerm c)) with
  | [] => none
  | t :: before =>
    some (pyStrip ((before.takeWhile (fun c => !(isSentTerm c))).reverse ++ [t]))

/-- `correct_sentences` (grammar_correction.py lines 14-40), with the LLM
client abstracted as the function `chat` from the user text to the message
it returns (the fixed system prompt and max_tokens are folded into it);
`family` is the configured model family. Returns the
(corrected, thinking) pairs. -/
def correctSentences (chat : List Char → LlmMessage) (family : List Char)
    (sentences : List (List Char)) : List (List Char × Option (List Char)) :=
  sentences.map (fun s =>
    let text := pyStrip s
    if text.isEmpty then (s, none)
    else
      let m := chat text
      let thinkingS := pyStrip (m.reasoningContent.getD [])
      let thinking : Option (List Char) :=
        if thinkingS.isEmpty then none else some thinkingS
      let final0 := pyStrip m.content
      let final1 :=
        if final0.isEmpty ∧ family = "thinking".data ∧ thinking.isSome then
          lastCompleteSentence thinkingS
        else final0
      let final2 := if final1.isEmpty then text else final1
      (final2, thinking))

/-- A backend whose message has whitespace-only content and a reasoning
trace ending in an incomplete sentence. -/
def c9chat : List Char → LlmMessage :=
  fun _ => ⟨"assistant".data, " ".data, some ("Use went. extra".data)⟩

/-- A backend whose message has non-blank content and no reasoning trace. -/
def c9chatB : List Char → LlmMessage :=
  fun _ => ⟨"assistant".data, "Fixed it.".data, none⟩

/-! Helper lemmas. -/

theorem splitBeforeFirst_length_le {pat l : List Char} {b : List Char}
    (h : splitBeforeFirst pat l = some b) : pat.length ≤ l.length := by
  induction l generalizing b with
  | nil =>
    simp only [splitBeforeFirst] at h
    rcases pat with _ | ⟨c, cs⟩
    · simp
    · simp [List.isEmpty] at h
  | cons c rest ih =>
    simp only [splitBeforeFirst] at h
    by_cases hp : pat.isPrefixOf (c :: rest)
    · have := (List.isPrefixOf_iff_prefix.mp hp).length_le
      simpa using this
    · simp only [hp, if_false] at h
      cases hsp : splitBeforeFirst pat rest with
      | none => rw [hsp] at h; cases h
      | some b0 =>
        have := ih hsp
        simp only [List.length_cons]
        omega

theorem splitBeforeFirst_cons (pat : List Char) (c : Char) (rest : List Char) :
    splitBeforeFirst pat (c :: rest) =
      if pat.isPrefixOf (c :: rest) then some []
      else
        match splitBeforeFirst pat rest with
        | some before => some (c :: before)
        | none => none := rfl

theorem splitBeforeFirst_append {pat l ext : List Char} {b : List Char}
    (h : splitBeforeFirst pat l = some b) :
    splitBeforeFirst pat (l ++ ext) = some b := by
  induction l generalizing b with
  | nil =>
    simp only [splitBeforeFirst] at h
    rcases pat with _ | ⟨c, cs⟩
    · simp only [List.isEmpty_nil, if_true, Option.some.injEq] at h
      subst h
      rcases ext with _ | ⟨e, es⟩
      · decide
      · rw [List.nil_append, splitBeforeFirst_cons]
        have hp : List.isPrefixOf ([] : List Char) (e :: es) = true := rfl
        rw [if_pos hp]
    · simp [List.isEmpty] at h
  | cons c rest ih =>
    rw [splitBeforeFirst_cons] at h
    rw [List.cons_append, splitBeforeFirst_cons]
    by_cases hp : pat.isPrefixOf (c :: rest)
    · have hpre : pat <+: (c :: rest) := List.isPrefixOf_iff_prefix.mp hp
      have hp2 : pat.isPrefixOf (c :: (rest ++ ext)) = true := by
        apply List.isPrefixOf_iff_prefix.mpr
        have := hpre.trans (List.prefix_append (c :: rest) ext)
        simpa using this
      rw [if_pos hp] at h
      rw [if_pos hp2]
      exact h
    · rw [if_neg hp] at h
      cases hsp : splitBeforeFirst pat rest with
      | none => rw [hsp] at h; cases h
      | some b0 =>
        rw [hsp] at h
        have hlen : pat.length ≤ rest.length := splitBeforeFirst_length_le hsp
        have hp2 : ¬ pat.isPrefixOf (c :: (rest ++ ext)) = true := by
          intro hcon
          apply hp
          have hpre : pat <+: (c :: (rest ++ ext)) := List.isPrefixOf_iff_prefix.mp hcon
          have htake := List.prefix_iff_eq_take.mp hpre
          rw [show c :: (rest ++ ext) = (c :: rest) ++ ext from rfl,
            List.take_append_of_le_length (by simpa using Nat.le_succ_of_le hlen)] at htake
          exact List.isPrefixOf_iff_prefix.mpr (List.prefix_iff_eq_take.mpr htake)
        rw [if_neg hp2, ih hsp]
        exact h

theorem splitBeforeFirst_of_prefix {pat l₁ l₂ : List Char} {b : List Char}
    (hpre : l₁ <+: l₂) (h : splitBeforeFirst pat l₁ = some b) :
    splitBeforeFirst pat l₂ = some b := by
  obtain ⟨ext, rfl⟩ := hpre
  exact splitBeforeFirst_append h

theorem detok_prefix_of_append (tk : Tokenizer)
    (hmono : ∀ l t, tk.detok l <+: tk.detok (l ++ [t])) :
    ∀ (ext l : List Nat), tk.detok l <+: tk.detok (l ++ ext) := by
  intro ext
  induction ext with
  | nil => intro l; simp
  | cons e es ih =>
    intro l
    have h1 := hmono l e
    have h2 := ih (l ++ [e])
    rw [List.append_assoc] at h2
    exact h1.trans (by simpa using h2)

theorem genFromStream_stop_spec (tk : Tokenizer) (s : List Char)
    (hmono : ∀ l t, tk.detok l <+: tk.detok (l ++ [t]))
    (hs : s.isEmpty = false) (maxT : Nat) :
    ∀ (stream : List Nat) (out : List Nat) (k : Nat), 1 ≤ k →
      out.length + k ≤ maxT → k ≤ stream.length →
      (splitBeforeFirst s (tk.detok (out ++ stream.take k))).isSome →
      genFromStream tk (some s) maxT out stream =
        tk.tok ((splitBeforeFirst s (tk.detok (out ++ stream))).getD []) := by
  intro stream
  induction stream with
  | nil =>
    intro out k hk1 _ hklen _
    simp at hklen
    omega
  | cons t rest ih =>
    intro out k hk1 hkmax hklen hksome
    cases hsp : splitBeforeFirst s (tk.detok (out ++ [t])) with
    | some b =>
      have hpre : tk.detok (out ++ [t]) <+: tk.detok (out ++ t :: rest) := by
        have := detok_prefix_of_append tk hmono rest (out ++ [t])
        simpa [List.append_assoc] using this
      have hbig := splitBeforeFirst_of_prefix hpre hsp
      simp only [genFromStream, hs, Bool.false_eq_true, if_false, hsp, hbig,
        Option.getD_some]
    | none =>
      have hk2 : 2 ≤ k := by
        by_contra hlt
        have hke : k = 1 := by omega
        subst hke
        rw [show (t :: rest).take 1 = [t] from rfl, hsp] at hksome
        simp at hksome
      have hnotmax : ¬ (maxT ≤ (out ++ [t]).length) := by
        simp only [List.length_append, List.length_cons, List.length_nil]
        omega
      obtain ⟨k1, rfl⟩ : ∃ k1, k = k1 + 1 := ⟨k - 1, by omega⟩
      have hrec := ih (out ++ [t]) k1 (by omega)
        (by simp only [List.length_append, List.length_cons, List.length_nil]; omega)
        (by simpa using hklen)
        (by simpa [List.append_assoc] using hksome)
      simp only [genFromStream, hs, Bool.false_eq_true, if_false, hsp, hnotmax]
      rw [hrec]
      simp [List.append_assoc]

end AgentFB

/-- Claim C1 (counterexample): the text returned by the generation operations
does NOT always end exactly at the first occurrence of the stop string with
the stop string excluded: for the stop string "!" and a token stream decoding
to "a !x" (stop occurring at the third token, before max_tokens = 10), the
segment before the first stop occurrence is "a ", while the returned text is
"a" — the final Python str.strip() removed the trailing space. -/
theorem claim_C1_cex :
    (AgentFB.splitBeforeFirst ['!']
      (AgentFB.charTok.detok (AgentFB.c1Stream.take 3))).isSome = true ∧
    AgentFB.generationText AgentFB.charTok (some ['!']) 10 AgentFB.c1Stream ≠
      (AgentFB.splitBeforeFirst ['!'] (AgentFB.charTok.detok AgentFB.c1Stream)).getD [] := by
  constructor
  · decide
  · decide

/-- Claim C1 (amended): for every tokenizer whose detokenizer round-trips the
tokenizer and decodes token lists monotonically, every non-empty stop string,
and every model token stream in which the stop string appears in the decoded
generated text within max_tokens tokens, the text returned by the KV-cache
generation operations (chat_with_cache and chat_no_cache) is the segment of
the decoded generated text strictly before the first occurrence of the stop
string (the stop string itself excluded) with leading and trailing whitespace
stripped; in particular no text decoded from tokens past that occurrence is
ever included in the result. -/
theorem claim_C1 (tk : AgentFB.Tokenizer) (s : List Char) (maxT : Nat)
    (stream : List Nat)
    (hrt : ∀ x, tk.detok (tk.tok x) = x)
    (hmono : ∀ l t, tk.detok l <+: tk.detok (l ++ [t]))
    (hs : s.isEmpty = false)
    (hk : ∃ k, 1 ≤ k ∧ k ≤ maxT ∧ k ≤ stream.length ∧
      (AgentFB.splitBeforeFirst s (tk.detok (stream.take k))).isSome) :
    AgentFB.generationText tk (some s) maxT stream =
      AgentFB.pyStrip ((AgentFB.splitBeforeFirst s (tk.detok stream)).getD []) := by
  obtain ⟨k, hk1, hkmax, hklen, hksome⟩ := hk
  have h := AgentFB.genFromStream_stop_spec tk s hmono hs maxT stream [] k hk1
    (by simpa using hkmax) hklen (by simpa using hksome)
  rw [List.nil_append] at h
  unfold AgentFB.generationText
  rw [h, hrt]

/-- Claim C1 (witness): the amended theorem applied to the concrete character
tokenizer, stop string "!", max_tokens 10 and the stream decoding to "a !x". -/
theorem claim_C1_witness :
    AgentFB.generationText AgentFB.charTok (some ['!']) 10 AgentFB.c1Stream =
      AgentFB.pyStrip ((AgentFB.splitBeforeFirst ['!']
        (AgentFB.charTok.detok AgentFB.c1Stream)).getD []) :=
  claim_C1 AgentFB.charTok ['!'] 10 AgentFB.c1Stream
    (fun x => by
      show (x.map Char.toNat).map Char.ofNat = x
      rw [List.map_map]
      have h : (Char.ofNat ∘ Char.toNat) = id := funext fun c => Char.ofNat_toNat c
      rw [h, List.map_id])
    (fun l t => by
      show l.map Char.ofNat <+: (l ++ [t]).map Char.ofNat
      rw [List.map_append]
      exact List.prefix_append _ _)
    (by decide)
    ⟨3, by decide, by decide, by decide, by decide⟩

theorem genStepLoop_cache_extends (env : AgentFB.KvEnv) (stop : Option (List Char))
    (maxT : Nat) :
    ∀ (fuel : Nat) (cache out : List Nat),
      ∃ ext, (AgentFB.genStepLoop env stop maxT fuel cache out).2 = cache ++ ext ∧
        ext.length ≤ fuel := by
  intro fuel
  induction fuel with
  | zero =>
    intro cache out
    exact ⟨[], by simp [AgentFB.genStepLoop], by simp⟩
  | succ n ih =>
    intro cache out
    have hlen : (out ++ [env.step cache]).length = out.length + 1 := by simp
    cases stop with
    | none =>
      simp only [AgentFB.genStepLoop]
      by_cases hm : maxT ≤ out.length + 1
      · refine ⟨[], ?_, by simp⟩
        rw [hlen, if_pos hm]
        simp
      · obtain ⟨ext, he, hl⟩ := ih (cache ++ [env.step cache]) (out ++ [env.step cache])
        refine ⟨env.step cache :: ext, ?_, by simpa using Nat.succ_le_succ hl⟩
        rw [hlen, if_neg hm, he, List.append_assoc]
        rfl
    | some s =>
      simp only [AgentFB.genStepLoop]
      by_cases hse : s.isEmpty
      · rw [if_pos hse]
        by_cases hm : maxT ≤ out.length + 1
        · refine ⟨[], ?_, by simp⟩
          rw [hlen, if_pos hm]
          simp
        · obtain ⟨ext, he, hl⟩ := ih (cache ++ [env.step cache]) (out ++ [env.step cache])
          refine ⟨env.step cache :: ext, ?_, by simpa using Nat.succ_le_succ hl⟩
          rw [hlen, if_neg hm, he, List.append_assoc]
          rfl
      · rw [if_neg hse]
        cases hsp : AgentFB.splitBeforeFirst s (env.tk.detok (out ++ [env.step cache])) with
        | some before =>
          exact ⟨[], by simp, by simp⟩
        | none =>
          by_cases hm : maxT ≤ out.length + 1
          · refine ⟨[], ?_, by simp⟩
            show (if maxT ≤ (out ++ [env.step cache]).length then (out ++ [env.step cache], cache)
              else AgentFB.genStepLoop env (some s) maxT n (cache ++ [env.step cache])
                (out ++ [env.step cache])).2 = cache ++ []
            rw [hlen, if_pos hm]
            simp
          · obtain ⟨ext, he, hl⟩ := ih (cache ++ [env.step cache]) (out ++ [env.step cache])
            refine ⟨env.step cache :: ext, ?_, by simpa using Nat.succ_le_succ hl⟩
            show (if maxT ≤ (out ++ [env.step cache]).length then (out ++ [env.step cache], cache)
              else AgentFB.genStepLoop env (some s) maxT n (cache ++ [env.step cache])
                (out ++ [env.step cache])).2 = cache ++ env.step cache :: ext
            rw [hlen, if_neg hm, he, List.append_assoc]
            rfl

theorem chatWithCache_depends_on_rewound (env : AgentFB.KvEnv)
    (h : AgentFB.KvCacheHandle) (sys ex : List Char) (maxT : Nat)
    (c1 c2 : List Nat) (hc : c1.take h.prefixLen = c2.take h.prefixLen) :
    AgentFB.chatWithCache env h sys ex maxT c1 =
      AgentFB.chatWithCache env h sys ex maxT c2 := by
  simp only [AgentFB.chatWithCache]
  rw [hc]

theorem chatWithCache_preserves_rewound (env : AgentFB.KvEnv)
    (h : AgentFB.KvCacheHandle) (sys ex : List Char) (maxT : Nat)
    (cache : List Nat) (hp : h.prefixLen ≤ cache.length) :
    ((AgentFB.chatWithCache env h sys ex maxT cache).2).take h.prefixLen =
      cache.take h.prefixLen := by
  simp only [AgentFB.chatWithCache, AgentFB.generateTokensStep]
  obtain ⟨ext, he, -⟩ := genStepLoop_cache_extends env
    (AgentFB.buildUserPrompt env sys ex).2 maxT (maxT + 1)
    (cache.take h.prefixLen ++ (AgentFB.buildUserPrompt env sys ex).1) []
  rw [he, List.append_assoc]
  have hlen : (cache.take h.prefixLen).length = h.prefixLen := by
    simp [Nat.min_eq_left hp]
  calc ((cache.take h.prefixLen) ++
        ((AgentFB.buildUserPrompt env sys ex).1 ++ ext)).take h.prefixLen
      = ((cache.take h.prefixLen) ++
        ((AgentFB.buildUserPrompt env sys ex).1 ++ ext)).take (cache.take h.prefixLen).length := by
        rw [hlen]
    _ = cache.take h.prefixLen := List.take_left _ _

theorem chatWithCache_cache_length_le (env : AgentFB.KvEnv)
    (h : AgentFB.KvCacheHandle) (sys ex : List Char) (maxT : Nat)
    (cache : List Nat) :
    ((AgentFB.chatWithCache env h sys ex maxT cache).2).length ≤
      h.prefixLen + (AgentFB.buildUserPrompt env sys ex).1.length + maxT + 1 := by
  simp only [AgentFB.chatWithCache, AgentFB.generateTokensStep]
  obtain ⟨ext, he, hl⟩ := genStepLoop_cache_extends env
    (AgentFB.buildUserPrompt env sys ex).2 maxT (maxT + 1)
    (cache.take h.prefixLen ++ (AgentFB.buildUserPrompt env sys ex).1) []
  rw [he]
  have : (cache.take h.prefixLen).length ≤ h.prefixLen := by
    simp [Nat.min_le_left]
  simp only [List.length_append]
  omega

/-- Claim C2: for every handle produced by `ingest_paragraph` and any two
sequential `chat_with_cache` calls on it (deterministic model), the second
call — text and resulting cache alike — is exactly what it would have been
had the first call never happened; repeating a call returns the cache length
to the same value; the ingested prefix entries of the cache are never
touched, and the cache grows only by the user turn plus at most
`max_tokens + 1` generated tokens, so the prefix is never re-evaluated. -/
theorem claim_C2 (env : AgentFB.KvEnv) (para sys1 ex1 sys2 ex2 : List Char)
    (m1 m2 : Nat) :
    AgentFB.chatWithCache env (AgentFB.ingestParagraph env para).1 sys2 ex2 m2
        ((AgentFB.chatWithCache env (AgentFB.ingestParagraph env para).1 sys1 ex1 m1
          (AgentFB.ingestParagraph env para).2).2) =
      AgentFB.chatWithCache env (AgentFB.ingestParagraph env para).1 sys2 ex2 m2
        (AgentFB.ingestParagraph env para).2 ∧
    ((AgentFB.chatWithCache env (AgentFB.ingestParagraph env para).1 sys1 ex1 m1
        ((AgentFB.chatWithCache env (AgentFB.ingestParagraph env para).1 sys1 ex1 m1
          (AgentFB.ingestParagraph env para).2).2)).2).length =
      ((AgentFB.chatWithCache env (AgentFB.ingestParagraph env para).1 sys1 ex1 m1
        (AgentFB.ingestParagraph env para).2).2).length ∧
    ((AgentFB.chatWithCache env (AgentFB.ingestParagraph env para).1 sys1 ex1 m1
        (AgentFB.ingestParagraph env para).2).2).take
        (AgentFB.ingestParagraph env para).1.prefixLen =
      ((AgentFB.ingestParagraph env para).2).take
        (AgentFB.ingestParagraph env para).1.prefixLen ∧
    ((AgentFB.chatWithCache env (AgentFB.ingestParagraph env para).1 sys1 ex1 m1
        (AgentFB.ingestParagraph env para).2).2).length ≤
      (AgentFB.ingestParagraph env para).1.prefixLen +
        (AgentFB.buildUserPrompt env sys1 ex1).1.length + m1 + 1 := by
  have hp : (AgentFB.ingestParagraph env para).1.prefixLen ≤
      ((AgentFB.ingestParagraph env para).2).length := by
    simp [AgentFB.ingestParagraph]
  have hkeep := chatWithCache_preserves_rewound env
    (AgentFB.ingestParagraph env para).1 sys1 ex1 m1
    (AgentFB.ingestParagraph env para).2 hp
  refine ⟨?_, ?_, hkeep, ?_⟩
  · exact chatWithCache_depends_on_rewound env _ sys2 ex2 m2 _ _ hkeep
  · rw [chatWithCache_depends_on_rewound env _ sys1 ex1 m1 _ _ hkeep]
  · exact chatWithCache_cache_length_le env _ sys1 ex1 m1 _

/-- Claim C4 (counterexample): a start whose backend process has exited
before any readiness probe succeeds does NOT always raise the startup
failure: with `wait_s = 0` (deadline at tick 0) the polling loop never runs
an iteration and start raises Timeout even though the process has already
exited and no probe ever received HTTP 200. -/
theorem claim_C4_cex :
    AgentFB.alwaysExited 0 = true ∧ AgentFB.neverReady 0 = false ∧
    AgentFB.startPollLoop AgentFB.alwaysExited AgentFB.neverReady
        AgentFB.noOutput AgentFB.noOutput 0 0 = AgentFB.StartOutcome.timeout := by
  refine ⟨rfl, rfl, ?_⟩
  rw [AgentFB.startPollLoop]
  simp

/-- Claim C4 (amended): whenever some polling iteration that begins before
the deadline observes the exited process, and no readiness probe ever
receives an HTTP 200 response, `start` raises the startup-failure error
embedding the process's captured stdout and stderr — never the Timeout
error. (If the deadline elapses before an iteration observes the exit, the
loop raises Timeout instead, which is what the counterexample exhibits.) -/
theorem claim_C4 (exited ready : Nat → Bool) (pout perr : Nat → List Char)
    (deadline i0 : Nat)
    (hex : ∃ e, i0 ≤ e ∧ e < deadline ∧ exited e = true)
    (hready : ∀ j, ready j = false) :
    ∃ j, i0 ≤ j ∧ j < deadline ∧
      AgentFB.startPollLoop exited ready pout perr deadline i0 =
        AgentFB.StartOutcome.startupFailure (pout j) (perr j) := by
  obtain ⟨e, he0, hed, hexit⟩ := hex
  suffices h : ∀ n i1, i1 ≤ e → e - i1 ≤ n →
      ∃ j, i1 ≤ j ∧ j < deadline ∧
        AgentFB.startPollLoop exited ready pout perr deadline i1 =
          AgentFB.StartOutcome.startupFailure (pout j) (perr j) from
    h (e - i0) i0 he0 le_rfl
  intro n
  induction n with
  | zero =>
    intro i1 hi1 hn
    have hie : i1 = e := by omega
    subst hie
    refine ⟨i1, le_rfl, hed, ?_⟩
    rw [AgentFB.startPollLoop, if_pos hed, if_pos hexit]
  | succ n ihn =>
    intro i1 hi1 hn
    have hi : i1 < deadline := by omega
    cases hx : exited i1 with
    | true =>
      refine ⟨i1, le_rfl, hi, ?_⟩
      rw [AgentFB.startPollLoop, if_pos hi, if_pos hx]
    | false =>
      have hne : i1 ≠ e := by
        intro hcon
        rw [hcon, hexit] at hx
        cases hx
      obtain ⟨j, hj1, hj2, hj3⟩ := ihn (i1 + 1) (by omega) (by omega)
      refine ⟨j, by omega, hj2, ?_⟩
      rw [AgentFB.startPollLoop, if_pos hi, if_neg (by rw [hx]; exact Bool.false_ne_true),
        if_neg (by rw [hready i1]; exact Bool.false_ne_true)]
      exact hj3

/-- Claim C4 (witness): the amended theorem at a concrete instance — the
process is observed exited at tick 0, the deadline is tick 5, no probe ever
succeeds: start fails with the captured (empty) output, not Timeout. -/
theorem claim_C4_witness :
    ∃ j, 0 ≤ j ∧ j < 5 ∧
      AgentFB.startPollLoop AgentFB.alwaysExited AgentFB.neverReady
          AgentFB.noOutput AgentFB.noOutput 5 0 =
        AgentFB.StartOutcome.startupFailure (AgentFB.noOutput j) (AgentFB.noOutput j) :=
  claim_C4 AgentFB.alwaysExited AgentFB.neverReady AgentFB.noOutput AgentFB.noOutput
    5 0 ⟨0, le_rfl, by omega, rfl⟩ (fun _ => rfl)

/-- Claim C8: whatever the prior state of the supervisor — not running (no
process, or a process that already exited), running and exiting within the
grace period, or running and surviving the graceful terminate so that the
force-kill is needed — after `stop()` returns the supervisor is Stopped:
`is_running()` returns false; and calling `stop()` when not running is a
no-op that sends no signal and leaves the handle unchanged. -/
theorem claim_C8 (s : Option AgentFB.ProcHandle) (b : Bool) :
    AgentFB.isRunning (AgentFB.stopProc s).1 = false ∧
    AgentFB.stopProc none = (none, []) ∧
    AgentFB.stopProc (some ⟨false, b⟩) = (some ⟨false, b⟩, []) := by
  refine ⟨?_, rfl, by cases b <;> rfl⟩
  cases s with
  | none => rfl
  | some p =>
    rcases p with ⟨a, sv⟩
    cases a <;> cases sv <;> rfl

theorem lookupAssoc_updateAssoc {V : Type} (l : List (String × V)) (k key : String) (v : V) :
    AgentFB.lookupAssoc (AgentFB.updateAssoc l k v) key =
      if k = key then some v else AgentFB.lookupAssoc l key := by
  induction l with
  | nil =>
    simp only [AgentFB.updateAssoc, AgentFB.lookupAssoc]
  | cons kv rest ih =>
    obtain ⟨k0, v0⟩ := kv
    simp only [AgentFB.updateAssoc]
    by_cases h0 : k0 = k
    · subst h0
      simp only [if_pos rfl, AgentFB.lookupAssoc]
      by_cases hk : k0 = key <;> simp [hk]
    · rw [if_neg h0]
      simp only [AgentFB.lookupAssoc, ih]
      by_cases hk0 : k0 = key
      · have hkk : ¬ k = key := fun hc => h0 (hk0.trans hc.symm)
        simp [hk0, hkk]
      · by_cases hkk : k = key <;> simp [hk0, hkk]

theorem updateAssoc_map_fst {V : Type} (l : List (String × V)) (k : String) (v : V)
    (hk : k ∈ l.map Prod.fst) :
    (AgentFB.updateAssoc l k v).map Prod.fst = l.map Prod.fst := by
  induction l with
  | nil => simp at hk
  | cons kv rest ih =>
    obtain ⟨k0, v0⟩ := kv
    simp only [AgentFB.updateAssoc]
    by_cases h0 : k0 = k
    · subst h0
      simp
    · rw [if_neg h0]
      have hk2 : k ∈ rest.map Prod.fst := by
        simp only [List.map_cons, List.mem_cons] at hk
        rcases hk with hk | hk
        · exact absurd hk.symm h0
        · exact hk
      simp [ih hk2]

theorem lookupAssoc_eq_none_of_not_mem {V : Type} {l : List (String × V)} {k : String}
    (h : k ∉ l.map Prod.fst) : AgentFB.lookupAssoc l k = none := by
  induction l with
  | nil => rfl
  | cons kv rest ih =>
    obtain ⟨k0, v0⟩ := kv
    simp only [List.map_cons, List.mem_cons] at h
    push_neg at h
    simp only [AgentFB.lookupAssoc]
    rw [if_neg (fun hc => h.1 hc.symm)]
    exact ih h.2

theorem lookupAssoc_mem {V : Type} {l : List (String × V)} {k : String} {v : V}
    (h : AgentFB.lookupAssoc l k = some v) : (k, v) ∈ l := by
  induction l with
  | nil => cases h
  | cons kv rest ih =>
    obtain ⟨k0, v0⟩ := kv
    simp only [AgentFB.lookupAssoc] at h
    by_cases h0 : k0 = k
    · rw [if_pos h0] at h
      subst h0
      cases h
      exact List.mem_cons_self _ _
    · rw [if_neg h0] at h
      exact List.mem_cons_of_mem _ (ih h)

theorem foldl_updateAssoc_map_fst {V : Type} (ov : List (String × V)) :
    ∀ (values : List (String × V)),
      (∀ k, k ∈ ov.map Prod.fst → k ∈ values.map Prod.fst) →
      (ov.foldl (fun acc kv => AgentFB.updateAssoc acc kv.1 kv.2) values).map Prod.fst =
        values.map Prod.fst := by
  induction ov with
  | nil => intro values _; rfl
  | cons kv rest ih =>
    intro values hsub
    obtain ⟨k0, v0⟩ := kv
    have hk0 : k0 ∈ values.map Prod.fst := hsub k0 (by simp)
    have hkeys := updateAssoc_map_fst values k0 v0 hk0
    simp only [List.foldl_cons]
    rw [ih (AgentFB.updateAssoc values k0 v0)
      (fun k hk => by rw [hkeys]; exact hsub k (by simp [hk]))]
    exact hkeys

theorem lookupAssoc_foldl_updateAssoc {V : Type} (ov : List (String × V)) :
    ∀ (values : List (String × V)), (ov.map Prod.fst).Nodup →
      ∀ key, AgentFB.lookupAssoc
          (ov.foldl (fun acc kv => AgentFB.updateAssoc acc kv.1 kv.2) values) key =
        AgentFB.overlay (AgentFB.lookupAssoc ov key) (AgentFB.lookupAssoc values key) := by
  induction ov with
  | nil => intro values _ key; rfl
  | cons kv rest ih =>
    intro values hnd key
    obtain ⟨k0, v0⟩ := kv
    simp only [List.map_cons, List.nodup_cons] at hnd
    simp only [List.foldl_cons]
    rw [ih (AgentFB.updateAssoc values k0 v0) hnd.2 key]
    by_cases hk : k0 = key
    · subst hk
      have hrest : AgentFB.lookupAssoc rest k0 = none :=
        lookupAssoc_eq_none_of_not_mem hnd.1
      simp [hrest, lookupAssoc_updateAssoc, AgentFB.lookupAssoc, AgentFB.overlay]
    · simp only [AgentFB.lookupAssoc]
      rw [if_neg hk]
      cases hr : AgentFB.lookupAssoc rest key with
      | some v => rfl
      | none => simp [lookupAssoc_updateAssoc, hk, AgentFB.overlay]

theorem applyOverrides_ok {V : Type} (values ov : List (String × V))
    (hsub : ∀ k, k ∈ ov.map Prod.fst → k ∈ values.map Prod.fst) :
    AgentFB.applyOverrides values ov =
      .ok (ov.foldl (fun acc kv => AgentFB.updateAssoc acc kv.1 kv.2) values) := by
  cases ov with
  | nil => rfl
  | cons kv rest =>
    simp only [AgentFB.applyOverrides, List.isEmpty_cons, Bool.false_eq_true, if_false]
    have hfilter : AgentFB.unknownKeys values (kv :: rest) = [] := by
      unfold AgentFB.unknownKeys
      have h0 : ((kv :: rest).map Prod.fst).filter
          (fun k => ¬ (values.map Prod.fst).contains k) = [] := by
        rw [List.filter_eq_nil_iff]
        intro k hk
        simp only [decide_not, Bool.not_eq_true', decide_eq_false_iff_not, Decidable.not_not]
        exact List.elem_iff.mpr (hsub k hk)
      rw [h0]
      rfl
    rw [hfilter]
    rfl

theorem mem_joinCommaSep {k : String} :
    ∀ {l : List String}, k ∈ l → k.data <:+: (AgentFB.joinCommaSep l).data := by
  intro l
  induction l with
  | nil => intro h; cases h
  | cons x rest ih =>
    intro h
    cases rest with
    | nil =>
      have hx : k = x := by simpa using h
      subst hx
      exact List.infix_refl _
    | cons y ys =>
      rcases List.mem_cons.mp h with h1 | h2
      · subst h1
        refine ⟨[], (", " ++ AgentFB.joinCommaSep (y :: ys)).data, ?_⟩
        simp [AgentFB.joinCommaSep, String.data_append]
      · have h3 := ih h2
        have h4 : (AgentFB.joinCommaSep (y :: ys)).data <:+:
            (AgentFB.joinCommaSep (x :: y :: ys)).data := by
          refine ⟨(x ++ ", ").data, [], ?_⟩
          simp [AgentFB.joinCommaSep, String.data_append]
        exact h3.trans h4

theorem mem_unknownKeys {V : Type} (values ov : List (String × V)) (k : String)
    (hk : k ∈ ov.map Prod.fst) (hkn : k ∉ values.map Prod.fst) :
    k ∈ AgentFB.unknownKeys values ov := by
  unfold AgentFB.unknownKeys
  rw [(List.perm_insertionSort _ _).mem_iff, List.mem_dedup, List.mem_filter]
  refine ⟨hk, ?_⟩
  simp only [decide_not, Bool.not_eq_eq_eq_not, Bool.not_true, decide_eq_false_iff_not]
  exact fun hc => hkn (List.elem_iff.mp hc)

theorem applyOverrides_unknown {V : Type} (values ov : List (String × V))
    (hex : ∃ k, k ∈ ov.map Prod.fst ∧ k ∉ values.map Prod.fst) :
    ∃ msg, AgentFB.applyOverrides values ov = .error msg ∧
      ∀ k, k ∈ ov.map Prod.fst → k ∉ values.map Prod.fst →
        k.data <:+: msg.data := by
  obtain ⟨k1, hk1, hk1n⟩ := hex
  have hovE : ov.isEmpty = false := by
    cases ov with
    | nil => simp at hk1
    | cons a as => rfl
  have hk1unk : k1 ∈ AgentFB.unknownKeys values ov := mem_unknownKeys values ov k1 hk1 hk1n
  have hne : (AgentFB.unknownKeys values ov).isEmpty = false := by
    cases hu : AgentFB.unknownKeys values ov with
    | nil => rw [hu] at hk1unk; cases hk1unk
    | cons a as => rfl
  refine ⟨"Unknown override keys: " ++
    AgentFB.joinCommaSep (AgentFB.unknownKeys values ov), ?_, ?_⟩
  · simp only [AgentFB.applyOverrides, hovE, hne, Bool.false_eq_true, if_false]
  · intro k hk hkn
    obtain ⟨s, t, hst⟩ := mem_joinCommaSep (mem_unknownKeys values ov k hk hkn)
    refine ⟨("Unknown override keys: ").data ++ s, t, ?_⟩
    rw [String.data_append, ← hst]
    simp

theorem applyOverrides_ok_lookup {V : Type} (values ov : List (String × V))
    (hsub : ∀ k, k ∈ ov.map Prod.fst → k ∈ values.map Prod.fst)
    (hnd : (ov.map Prod.fst).Nodup) :
    ∃ v, AgentFB.applyOverrides values ov = .ok v ∧
      v.map Prod.fst = values.map Prod.fst ∧
      ∀ key, AgentFB.lookupAssoc v key =
        AgentFB.overlay (AgentFB.lookupAssoc ov key) (AgentFB.lookupAssoc values key) :=
  ⟨_, applyOverrides_ok values ov hsub, foldl_updateAssoc_map_fst ov values hsub,
    lookupAssoc_foldl_updateAssoc ov values hnd⟩

theorem requestValues_map_fst (g : AgentFB.RequestGlobals) :
    (AgentFB.requestValues g).map Prod.fst =
      ["max_tokens", "temperature", "top_p", "top_k", "repeat_penalty",
       "seed", "stop", "response_format", "stream"] := rfl

theorem serverValues_map_fst (g : AgentFB.ServerGlobals) :
    (AgentFB.serverValues g).map Prod.fst =
      ["server_bin", "model_path", "model_alias", "host", "port", "n_ctx",
       "n_threads", "n_gpu_layers", "n_batch", "seed", "rope_freq_base",
       "rope_freq_scale", "mmproj_path"] := rfl

theorem taskDefaults_facts :
    ∀ p ∈ AgentFB.taskDefaults, p.2.isEmpty = false ∧
      (p.2.map Prod.fst).Nodup ∧
      ∀ k ∈ p.2.map Prod.fst,
        k ∈ ["max_tokens", "temperature", "top_p", "top_k", "repeat_penalty",
          "seed", "stop", "response_format", "stream"] := by
  decide

/-- Claim C5: with no explicit overrides, `resolve_request_config` for a task
absent from TASK_DEFAULTS returns exactly the global defaults; for a task
with registered defaults the task's values replace the global values for
exactly the keys the task defines; and explicit call-site overrides (with
recognized, distinct keys) replace both the task and the global values. -/
theorem claim_C5 :
    (∀ (g : AgentFB.RequestGlobals) (task : String),
      AgentFB.lookupAssoc AgentFB.taskDefaults task = none →
      AgentFB.resolveRequestConfig g task [] = .ok (AgentFB.requestValues g)) ∧
    (∀ (g : AgentFB.RequestGlobals) (task : String)
        (td : List (String × AgentFB.CfgVal)),
      AgentFB.lookupAssoc AgentFB.taskDefaults task = some td →
      ∃ v, AgentFB.resolveRequestConfig g task [] = .ok v ∧
        ∀ key, AgentFB.lookupAssoc v key =
          AgentFB.overlay (AgentFB.lookupAssoc td key)
            (AgentFB.lookupAssoc (AgentFB.requestValues g) key)) ∧
    (∀ (g : AgentFB.RequestGlobals) (task : String)
        (ov : List (String × AgentFB.CfgVal)),
      (∀ k, k ∈ ov.map Prod.fst → k ∈ (AgentFB.requestValues g).map Prod.fst) →
      (ov.map Prod.fst).Nodup →
      ∃ v, AgentFB.resolveRequestConfig g task ov = .ok v ∧
        ∀ key, AgentFB.lookupAssoc v key =
          AgentFB.overlay (AgentFB.lookupAssoc ov key)
            (AgentFB.overlay
              (AgentFB.lookupAssoc
                ((AgentFB.lookupAssoc AgentFB.taskDefaults task).getD []) key)
              (AgentFB.lookupAssoc (AgentFB.requestValues g) key))) := by
  refine ⟨?_, ?_, ?_⟩
  · intro g task ht
    simp only [AgentFB.resolveRequestConfig, ht]
    rfl
  · intro g task td ht
    obtain ⟨htdne, htdnd, htdsub⟩ := taskDefaults_facts (task, td) (lookupAssoc_mem ht)
    have hsub : ∀ k, k ∈ td.map Prod.fst → k ∈ (AgentFB.requestValues g).map Prod.fst := by
      intro k hk
      rw [requestValues_map_fst]
      exact htdsub k hk
    obtain ⟨v, hok, hkeys, hlook⟩ :=
      applyOverrides_ok_lookup (AgentFB.requestValues g) td hsub htdnd
    refine ⟨v, ?_, hlook⟩
    simp only [AgentFB.resolveRequestConfig, ht, htdne, Bool.false_eq_true, if_false, hok]
    rfl
  · intro g task ov hsub hnd
    cases ht : AgentFB.lookupAssoc AgentFB.taskDefaults task with
    | none =>
      obtain ⟨v, hok, hkeys, hlook⟩ :=
        applyOverrides_ok_lookup (AgentFB.requestValues g) ov hsub hnd
      refine ⟨v, ?_, ?_⟩
      · simp only [AgentFB.resolveRequestConfig, ht, hok]
      · intro key
        rw [hlook key]
        cases AgentFB.lookupAssoc ov key with
        | some w => rfl
        | none => simp [AgentFB.lookupAssoc, AgentFB.overlay]
    | some td =>
      obtain ⟨htdne, htdnd, htdsub⟩ := taskDefaults_facts (task, td) (lookupAssoc_mem ht)
      have hsub1 : ∀ k, k ∈ td.map Prod.fst → k ∈ (AgentFB.requestValues g).map Prod.fst := by
        intro k hk
        rw [requestValues_map_fst]
        exact htdsub k hk
      obtain ⟨v1, hok1, hkeys1, hlook1⟩ :=
        applyOverrides_ok_lookup (AgentFB.requestValues g) td hsub1 htdnd
      have hsub2 : ∀ k, k ∈ ov.map Prod.fst → k ∈ v1.map Prod.fst := by
        intro k hk
        rw [hkeys1]
        exact hsub k hk
      obtain ⟨v2, hok2, hkeys2, hlook2⟩ := applyOverrides_ok_lookup v1 ov hsub2 hnd
      refine ⟨v2, ?_, ?_⟩
      · simp only [AgentFB.resolveRequestConfig, ht, htdne, Bool.false_eq_true,
          if_false, hok1, hok2]
      · intro key
        rw [hlook2 key, hlook1 key]
        simp only [Option.getD_some]

/-- Claim C5 (witness): the three parts of the claim at concrete inputs —
an unregistered task name returns exactly the global defaults; the
grammar_correction task overrides exactly max_tokens and temperature; an
explicit temperature override wins over both. -/
theorem claim_C5_witness :
    (AgentFB.resolveRequestConfig AgentFB.reqGlobals0 "no_such_task" [] =
      .ok (AgentFB.requestValues AgentFB.reqGlobals0)) ∧
    (∃ v, AgentFB.resolveRequestConfig AgentFB.reqGlobals0 "grammar_correction" [] =
        .ok v ∧
      ∀ key, AgentFB.lookupAssoc v key =
        AgentFB.overlay (AgentFB.lookupAssoc AgentFB.gcTaskDefaults key)
          (AgentFB.lookupAssoc (AgentFB.requestValues AgentFB.reqGlobals0) key)) ∧
    (∃ v, AgentFB.resolveRequestConfig AgentFB.reqGlobals0 "grammar_correction"
        AgentFB.ovExample = .ok v ∧
      ∀ key, AgentFB.lookupAssoc v key =
        AgentFB.overlay (AgentFB.lookupAssoc AgentFB.ovExample key)
          (AgentFB.overlay
            (AgentFB.lookupAssoc
              ((AgentFB.lookupAssoc AgentFB.taskDefaults "grammar_correction").getD []) key)
            (AgentFB.lookupAssoc (AgentFB.requestValues AgentFB.reqGlobals0) key))) :=
  ⟨claim_C5.1 AgentFB.reqGlobals0 "no_such_task" (by decide),
   claim_C5.2.1 AgentFB.reqGlobals0 "grammar_correction" AgentFB.gcTaskDefaults (by decide),
   claim_C5.2.2 AgentFB.reqGlobals0 "grammar_correction" AgentFB.ovExample
     (by decide) (by decide)⟩

/-- Claim C6: an override map holding any key outside the base dict's field
names makes server-config and request-config resolution fail with the
`ValueError` whose message names every unknown key — the resolution yields
an error, not a configuration, so no override value (known or unknown) is
ever applied to a result. -/
theorem claim_C6 :
    (∀ (normPath : String → String) (g : AgentFB.ServerGlobals)
        (ov : List (String × AgentFB.CfgVal)),
      (∃ k, k ∈ ov.map Prod.fst ∧ k ∉ (AgentFB.serverValues g).map Prod.fst) →
      ∃ msg, AgentFB.resolveServerConfig normPath g ov = .error msg ∧
        ∀ k, k ∈ ov.map Prod.fst → k ∉ (AgentFB.serverValues g).map Prod.fst →
          k.data <:+: msg.data) ∧
    (∀ (g : AgentFB.RequestGlobals) (task : String)
        (ov : List (String × AgentFB.CfgVal)),
      (∃ k, k ∈ ov.map Prod.fst ∧ k ∉ (AgentFB.requestValues g).map Prod.fst) →
      ∃ msg, AgentFB.resolveRequestConfig g task ov = .error msg ∧
        ∀ k, k ∈ ov.map Prod.fst → k ∉ (AgentFB.requestValues g).map Prod.fst →
          k.data <:+: msg.data) := by
  constructor
  · intro normPath g ov hex
    obtain ⟨msg, herr, hnames⟩ := applyOverrides_unknown (AgentFB.serverValues g) ov hex
    refine ⟨msg, ?_, hnames⟩
    simp only [AgentFB.resolveServerConfig, herr]
  · intro g task ov hex
    cases ht : AgentFB.lookupAssoc AgentFB.taskDefaults task with
    | none =>
      obtain ⟨msg, herr, hnames⟩ :=
        applyOverrides_unknown (AgentFB.requestValues g) ov hex
      refine ⟨msg, ?_, hnames⟩
      simp only [AgentFB.resolveRequestConfig, ht, herr]
    | some td =>
      obtain ⟨htdne, htdnd, htdsub⟩ := taskDefaults_facts (task, td) (lookupAssoc_mem ht)
      have hsub1 : ∀ k, k ∈ td.map Prod.fst → k ∈ (AgentFB.requestValues g).map Prod.fst := by
        intro k hk
        rw [requestValues_map_fst]
        exact htdsub k hk
      obtain ⟨v1, hok1, hkeys1, hlook1⟩ :=
        applyOverrides_ok_lookup (AgentFB.requestValues g) td hsub1 htdnd
      have hex1 : ∃ k, k ∈ ov.map Prod.fst ∧ k ∉ v1.map Prod.fst := by
        obtain ⟨k, hk, hkn⟩ := hex
        exact ⟨k, hk, by rw [hkeys1]; exact hkn⟩
      obtain ⟨msg, herr, hnames1⟩ := applyOverrides_unknown v1 ov hex1
      refine ⟨msg, ?_, ?_⟩
      · simp only [AgentFB.resolveRequestConfig, ht, htdne, Bool.false_eq_true,
          if_false, hok1, herr]
      · intro k hk hkn
        exact hnames1 k hk (by rw [hkeys1]; exact hkn)

/-- Claim C6 (witness): the override key "bogus_key" is unknown to both
resolvers; each resolution fails with an error message naming it. -/
theorem claim_C6_witness :
    (∃ msg, AgentFB.resolveServerConfig id AgentFB.srvGlobals0 AgentFB.badOverride =
        .error msg ∧
      ∀ k, k ∈ AgentFB.badOverride.map Prod.fst →
        k ∉ (AgentFB.serverValues AgentFB.srvGlobals0).map Prod.fst →
          k.data <:+: msg.data) ∧
    (∃ msg, AgentFB.resolveRequestConfig AgentFB.reqGlobals0 "answer"
        AgentFB.badOverride = .error msg ∧
      ∀ k, k ∈ AgentFB.badOverride.map Prod.fst →
        k ∉ (AgentFB.requestValues AgentFB.reqGlobals0).map Prod.fst →
          k.data <:+: msg.data) :=
  ⟨claim_C6.1 id AgentFB.srvGlobals0 AgentFB.badOverride
     ⟨"bogus_key", by decide, by decide⟩,
   claim_C6.2 AgentFB.reqGlobals0 "answer" AgentFB.badOverride
     ⟨"bogus_key", by decide, by decide⟩⟩

theorem extractLoop_eq (t : List Char) :
    ∀ last, AgentFB.extractLastJsonLoop last t =
      AgentFB.overlay (AgentFB.parseAttempts t).getLast? last := by
  induction t with
  | nil =>
    intro last
    simp [AgentFB.extractLastJsonLoop, AgentFB.parseAttempts, AgentFB.parseAttemptAt,
      AgentFB.overlay]
  | cons c rest ih =>
    intro last
    have hat : AgentFB.parseAttempts (c :: rest) =
        match AgentFB.parseAttemptAt (c :: rest) with
        | some a => a :: AgentFB.parseAttempts rest
        | none => AgentFB.parseAttempts rest := by
      simp only [AgentFB.parseAttempts, List.tails_cons, List.filterMap_cons]
      cases AgentFB.parseAttemptAt (c :: rest) with
      | some a => rfl
      | none => rfl
    by_cases hc : c = '{'
    · subst hc
      cases hn : AgentFB.rawDecodeLen ('{' :: rest) with
      | some n =>
        by_cases hraw : (AgentFB.pyStrip (('{' :: rest).take n)).isEmpty
        · have hloop : AgentFB.extractLastJsonLoop last ('{' :: rest) =
              AgentFB.extractLastJsonLoop last rest := by
            simp [AgentFB.extractLastJsonLoop, hn, hraw]
          have hatt : AgentFB.parseAttemptAt ('{' :: rest) = none := by
            simp [AgentFB.parseAttemptAt, hn, hraw]
          rw [hloop, ih last, hat, hatt]
        · have hloop : AgentFB.extractLastJsonLoop last ('{' :: rest) =
              AgentFB.extractLastJsonLoop
                (some (AgentFB.pyStrip (('{' :: rest).take n))) rest := by
            simp [AgentFB.extractLastJsonLoop, hn, hraw]
          have hatt : AgentFB.parseAttemptAt ('{' :: rest) =
              some (AgentFB.pyStrip (('{' :: rest).take n)) := by
            simp [AgentFB.parseAttemptAt, hn, hraw]
          rw [hloop, ih, hat, hatt]
          rw [List.getLast?_cons]
          cases (AgentFB.parseAttempts rest).getLast? with
          | some w => rfl
          | none => rfl
      | none =>
        have hloop : AgentFB.extractLastJsonLoop last ('{' :: rest) =
            AgentFB.extractLastJsonLoop last rest := by
          simp [AgentFB.extractLastJsonLoop, hn]
        have hatt : AgentFB.parseAttemptAt ('{' :: rest) = none := by
          simp [AgentFB.parseAttemptAt, hn]
        rw [hloop, ih last, hat, hatt]
    · have hloop : AgentFB.extractLastJsonLoop last (c :: rest) =
          AgentFB.extractLastJsonLoop last rest := by
        simp [AgentFB.extractLastJsonLoop, hc]
      have hatt : AgentFB.parseAttemptAt (c :: rest) = none := by
        simp [AgentFB.parseAttemptAt, hc]
      rw [hloop, ih last, hat, hatt]

/-- Claim C3: the schema-constrained JSON extraction returns the last
well-formed JSON object found by scanning the text for every brace and
attempting a raw decode at each occurrence (`parseAttempts` lists those
attempts in scanning order); on the concrete text
`sure, here you go: {"a":1} thanks {"a":2}` it returns `{"a":2}`, not
`{"a":1}`; and when no occurrence parses, the schema chat operations fail
with the decode error carrying the raw text. -/
theorem claim_C3 :
    AgentFB.extractLastJsonObject
        ("sure, here you go: \x7b\"a\":1\x7d thanks \x7b\"a\":2\x7d".data) =
      some ("\x7b\"a\":2\x7d".data) ∧
    (∀ text, AgentFB.extractLastJsonObject text = (AgentFB.parseAttempts text).getLast?) ∧
    (∀ text, AgentFB.extractLastJsonObject text = none →
      AgentFB.jsonSchemaChatText text =
        .error ("Invalid JSON from KV model: ".data ++ text)) := by
  refine ⟨by rfl, ?_, ?_⟩
  · intro text
    rw [AgentFB.extractLastJsonObject, extractLoop_eq]
    cases (AgentFB.parseAttempts text).getLast? with
    | some w => rfl
    | none => rfl
  · intro text h
    simp [AgentFB.jsonSchemaChatText, h]

/-- Claim C3 (witness): on a text with no parsable JSON object the schema
chat operation fails with the decode error carrying the raw text. -/
theorem claim_C3_witness :
    AgentFB.jsonSchemaChatText ("no json here".data) =
      .error ("Invalid JSON from KV model: ".data ++ "no json here".data) :=
  claim_C3.2.2 ("no json here".data) (by rfl)

/-- Claim C7: against a stub emitting the SSE frames with deltas "Hi" and
" there" followed by a `[DONE]` sentinel, `chat_stream` yields exactly the
two-element sequence ["Hi", " there"], whatever follows the sentinel (the
sentinel terminates the sequence); without the sentinel the stream end
terminates it with the same two chunks. -/
theorem claim_C7 :
    (∀ rest, AgentFB.chatStreamLines
        (AgentFB.sseFrame1 :: AgentFB.sseFrame2 :: AgentFB.sseDone :: rest) =
      .ok [AgentFB.JVal.str ("Hi".data), AgentFB.JVal.str (" there".data)]) ∧
    AgentFB.chatStreamLines [AgentFB.sseFrame1, AgentFB.sseFrame2] =
      .ok [AgentFB.JVal.str ("Hi".data), AgentFB.JVal.str (" there".data)] := by
  have h1 : ∀ t, AgentFB.chatStreamLines (AgentFB.sseFrame1 :: t) =
      match AgentFB.chatStreamLines t with
      | .ok l => .ok (AgentFB.JVal.str ("Hi".data) :: l)
      | .error e => .error e := fun _ => rfl
  have h2 : ∀ t, AgentFB.chatStreamLines (AgentFB.sseFrame2 :: t) =
      match AgentFB.chatStreamLines t with
      | .ok l => .ok (AgentFB.JVal.str (" there".data) :: l)
      | .error e => .error e := fun _ => rfl
  have hdone : ∀ t, AgentFB.chatStreamLines (AgentFB.sseDone :: t) = .ok [] :=
    fun _ => rfl
  constructor
  · intro rest
    rw [h1, h2, hdone]
  · rw [h1, h2]
    rfl

/-- Claim C10: an HTTP 200 body that lacks a "choices" key, or has an empty
choices list, or whose first choice is an object with no "message" key,
makes `chat_message` return — without raising — the assistant message with
empty content and no reasoning trace. -/
theorem claim_C10 (fields : List (List Char × AgentFB.JVal)) :
    (AgentFB.jDictGet fields ("choices".data) = none →
      AgentFB.chatMessageFromBody (.obj fields) =
        .ok (.str ("assistant".data), .str [], .null)) ∧
    (AgentFB.jDictGet fields ("choices".data) = some (.arr []) →
      AgentFB.chatMessageFromBody (.obj fields) =
        .ok (.str ("assistant".data), .str [], .null)) ∧
    (∀ c0 cs c0f,
      AgentFB.jDictGet fields ("choices".data) = some (.arr (c0 :: cs)) →
      AgentFB.asObj c0 = some c0f →
      AgentFB.jDictGet c0f ("message".data) = none →
      AgentFB.chatMessageFromBody (.obj fields) =
        .ok (.str ("assistant".data), .str [], .null)) := by
  refine ⟨?_, ?_, ?_⟩
  · intro h
    simp [AgentFB.chatMessageFromBody, AgentFB.asObj, AgentFB.pyOrJ, h]
  · intro h
    simp [AgentFB.chatMessageFromBody, AgentFB.asObj, AgentFB.pyOrJ, h, AgentFB.pyTruthy]
  · intro c0 cs c0f h h0 hm
    simp only [AgentFB.chatMessageFromBody,
      show AgentFB.asObj (.obj fields) = some fields from rfl, h, h0, hm,
      AgentFB.pyOrJ, AgentFB.pyTruthy, List.isEmpty_cons, Bool.not_false, if_true]

/-- Claim C10 (witness): the three hypotheses at concrete 200-response
bodies — no choices key, empty choices, and a first choice without a
message object. -/
theorem claim_C10_witness :
    AgentFB.chatMessageFromBody (.obj AgentFB.c10BodyA) =
      .ok (.str ("assistant".data), .str [], .null) ∧
    AgentFB.chatMessageFromBody (.obj AgentFB.c10BodyB) =
      .ok (.str ("assistant".data), .str [], .null) ∧
    AgentFB.chatMessageFromBody (.obj AgentFB.c10BodyC) =
      .ok (.str ("assistant".data), .str [], .null) :=
  ⟨(claim_C10 AgentFB.c10BodyA).1 (by rfl),
   (claim_C10 AgentFB.c10BodyB).2.1 (by rfl),
   (claim_C10 AgentFB.c10BodyC).2.2 AgentFB.c10Choice []
     [("index".data, .num ['0'])] (by rfl) (by rfl) (by rfl)⟩

theorem dropWhile_dropWhile {α : Type} (p : α → Bool) :
    ∀ l : List α, List.dropWhile p (List.dropWhile p l) = List.dropWhile p l := by
  intro l
  induction l with
  | nil => rfl
  | cons a l ih =>
    rw [List.dropWhile_cons]
    by_cases ha : p a
    · rw [if_pos ha, ih]
    · rw [if_neg ha, List.dropWhile_cons, if_neg ha]

theorem dropWhile_eq_self_of_prefix {α : Type} (p : α → Bool) {A B : List α}
    (hA : List.dropWhile p A = A) (hpre : B <+: A) :
    List.dropWhile p B = B := by
  cases B with
  | nil => rfl
  | cons b B2 =>
    obtain ⟨t, rfl⟩ := hpre
    rw [List.cons_append, List.dropWhile_cons] at hA
    by_cases hb : p b
    · rw [if_pos hb] at hA
      have hle := (List.dropWhile_sublist p (l := B2 ++ t)).length_le
      rw [hA] at hle
      simp at hle
    · rw [List.dropWhile_cons, if_neg hb]

theorem pyStrip_idem (l : List Char) : AgentFB.pyStrip (AgentFB.pyStrip l) = AgentFB.pyStrip l := by
  unfold AgentFB.pyStrip
  set A := l.dropWhile AgentFB.pyWs with hA
  have hAself : A.dropWhile AgentFB.pyWs = A := by
    rw [hA]
    exact dropWhile_dropWhile _ l
  have hpre : (A.reverse.dropWhile AgentFB.pyWs).reverse <+: A := by
    have h := List.reverse_prefix.mpr
      (List.dropWhile_suffix (l := A.reverse) AgentFB.pyWs)
    simpa using h
  have h1 : ((A.reverse.dropWhile AgentFB.pyWs).reverse).dropWhile AgentFB.pyWs =
      (A.reverse.dropWhile AgentFB.pyWs).reverse :=
    dropWhile_eq_self_of_prefix _ hAself hpre
  rw [h1, List.reverse_reverse, dropWhile_dropWhile]

theorem dropWhile_head_false {α : Type} (p : α → Bool) :
    ∀ (l : List α) (c : α) (rest : List α),
      List.dropWhile p l = c :: rest → p c = false := by
  intro l
  induction l with
  | nil => intro c rest h; cases h
  | cons a l ih =>
    intro c rest h
    rw [List.dropWhile_cons] at h
    by_cases ha : p a
    · rw [if_pos ha] at h
      exact ih c rest h
    · rw [if_neg ha] at h
      cases h
      exact Bool.eq_false_iff.mpr ha

theorem pyStrip_concat_nonws {c : Char} (hc : AgentFB.pyWs c = false) (l : List Char) :
    AgentFB.pyStrip (l ++ [c]) ≠ [] := by
  unfold AgentFB.pyStrip
  have h1 : (l ++ [c]).dropWhile AgentFB.pyWs = l.dropWhile AgentFB.pyWs ++ [c] := by
    rw [List.dropWhile_append]
    by_cases he : (l.dropWhile AgentFB.pyWs).isEmpty
    · rw [if_pos he]
      have he2 : l.dropWhile AgentFB.pyWs = [] := by simpa [List.isEmpty_iff] using he
      rw [he2, List.nil_append]
      rw [List.dropWhile_cons, hc]
      simp
    · rw [if_neg he]
  rw [h1, List.reverse_append]
  show (List.dropWhile AgentFB.pyWs
    ([c].reverse ++ (l.dropWhile AgentFB.pyWs).reverse)).reverse ≠ []
  rw [show ([c] : List Char).reverse = [c] from rfl, List.cons_append,
    List.dropWhile_cons, hc]
  simp

theorem isSentTerm_not_ws {c : Char} (hc : AgentFB.isSentTerm c = true) :
    AgentFB.pyWs c = false := by
  have h3 : (c = '.' ∨ c = '!') ∨ c = '?' := by
    simpa [AgentFB.isSentTerm] using hc
  rcases h3 with (h | h) | h <;> subst h <;> decide

theorem sentFold_scan (s : List Char) :
    (s.foldl AgentFB.sentFold ([], [])).2 =
      (s.reverse.takeWhile (fun c => !(AgentFB.isSentTerm c))).reverse ∧
    (s.foldl AgentFB.sentFold ([], [])).1 =
      (AgentFB.lastCompleteSentenceSpec s).getD [] := by
  induction s using List.reverseRecOn with
  | nil => exact ⟨rfl, rfl⟩
  | append_singleton l c ih =>
    obtain ⟨ih2, ih1⟩ := ih
    rw [List.foldl_append, List.foldl_cons, List.foldl_nil]
    by_cases hc : AgentFB.isSentTerm c
    · have hne : ¬ (AgentFB.pyStrip ((l.foldl AgentFB.sentFold ([], [])).2 ++ [c])).isEmpty := by
        simp only [List.isEmpty_iff]
        exact pyStrip_concat_nonws (isSentTerm_not_ws hc) _
      have hspec : AgentFB.lastCompleteSentenceSpec (l ++ [c]) =
          some (AgentFB.pyStrip
            ((l.reverse.takeWhile (fun x => !(AgentFB.isSentTerm x))).reverse ++ [c])) := by
        unfold AgentFB.lastCompleteSentenceSpec
        rw [List.reverse_append, show ([c] : List Char).reverse = [c] from rfl,
          List.cons_append, List.nil_append, List.dropWhile_cons]
        simp [hc]
      constructor
      · simp only [AgentFB.sentFold, hc, if_true]
        rw [List.reverse_append, show ([c] : List Char).reverse = [c] from rfl,
          List.cons_append, List.nil_append, List.takeWhile_cons]
        simp [hc]
      · simp only [AgentFB.sentFold, hc, if_true, if_neg hne]
        rw [ih2, hspec]
        rfl
    · have hspec : AgentFB.lastCompleteSentenceSpec (l ++ [c]) =
          AgentFB.lastCompleteSentenceSpec l := by
        unfold AgentFB.lastCompleteSentenceSpec
        rw [List.reverse_append, show ([c] : List Char).reverse = [c] from rfl,
          List.cons_append, List.nil_append, List.dropWhile_cons]
        simp [hc]
      constructor
      · simp only [AgentFB.sentFold, hc, if_false]
        rw [ih2, List.reverse_append, show ([c] : List Char).reverse = [c] from rfl,
          List.cons_append, List.nil_append, List.takeWhile_cons]
        simp [hc]
      · simp only [AgentFB.sentFold, hc, Bool.false_eq_true, if_false]
        rw [ih1, hspec]

theorem lastCompleteSentenceSpec_ne_nil {s seg : List Char}
    (h : AgentFB.lastCompleteSentenceSpec s = some seg) : seg ≠ [] := by
  unfold AgentFB.lastCompleteSentenceSpec at h
  cases hd : s.reverse.dropWhile (fun c => !(AgentFB.isSentTerm c)) with
  | nil => rw [hd] at h; cases h
  | cons t before =>
    rw [hd] at h
    have ht : (fun c => !(AgentFB.isSentTerm c)) t = false :=
      dropWhile_head_false (fun c => !(AgentFB.isSentTerm c)) s.reverse t before hd
    have ht2 : AgentFB.isSentTerm t = true := by simpa using ht
    simp only [Option.some.injEq] at h
    subst h
    exact pyStrip_concat_nonws (isSentTerm_not_ws ht2) _

theorem lastCompleteSentence_eq (s : List Char) :
    AgentFB.lastCompleteSentence s =
      (AgentFB.lastCompleteSentenceSpec s).getD (AgentFB.pyStrip s) := by
  obtain ⟨h2, h1⟩ := sentFold_scan s
  unfold AgentFB.lastCompleteSentence
  cases hspec : AgentFB.lastCompleteSentenceSpec s with
  | some seg =>
    rw [hspec] at h1
    simp only [Option.getD_some] at h1 ⊢
    rw [h1, if_neg (by simpa [List.isEmpty_iff] using lastCompleteSentenceSpec_ne_nil hspec)]
  | none =>
    rw [hspec] at h1
    simp only [Option.getD_none] at h1 ⊢
    have hdw : s.reverse.dropWhile (fun c => !(AgentFB.isSentTerm c)) = [] := by
      unfold AgentFB.lastCompleteSentenceSpec at hspec
      cases hd : s.reverse.dropWhile (fun c => !(AgentFB.isSentTerm c)) with
      | nil => rfl
      | cons t before => rw [hd] at hspec; cases hspec
    have htw : s.reverse.takeWhile (fun c => !(AgentFB.isSentTerm c)) = s.reverse := by
      have := List.takeWhile_append_dropWhile (fun c => !(AgentFB.isSentTerm c)) s.reverse
      rw [hdw, List.append_nil] at this
      exact this
    rw [if_pos (by simpa [List.isEmpty_iff] using h1), h2, htw, List.reverse_reverse]
    by_cases hs : s.isEmpty
    · have : s = [] := by simpa [List.isEmpty_iff] using hs
      subst this
      rfl
    · rw [if_neg (by simpa using hs)]

/-- Claim C9 (counterexample): with family "thinking", a backend message
whose content is the non-empty string " " (which trims to empty) does not
yield that content trimmed: the fallback kicks in and the returned
correction is the last complete sentence of the reasoning trace
("Use went."), not the trimmed content (""). -/
theorem claim_C9_cex :
    AgentFB.pyStrip ("Hi me".data) ≠ [] ∧
    (" ".data : List Char) ≠ [] ∧
    AgentFB.c9chat (AgentFB.pyStrip ("Hi me".data)) =
      ⟨"assistant".data, " ".data, some ("Use went. extra".data)⟩ ∧
    AgentFB.correctSentences AgentFB.c9chat ("thinking".data) ["Hi me".data] =
      [("Use went.".data, some ("Use went. extra".data))] ∧
    "Use went.".data ≠ AgentFB.pyStrip (" ".data) := by
  refine ⟨by decide, by decide, rfl, by decide, by decide⟩

/-- Claim C9 (amended): for every non-blank input sentence under family
"thinking": if the message content is non-blank after trimming, the
returned correction is exactly the trimmed content and the reasoning trace
contributes nothing beyond being reported separately; if the trimmed
content is empty and the trimmed reasoning is non-empty, the correction is
the last complete sentence of the trimmed reasoning (the stripped segment
ending at its last '.', '!' or '?'), or the whole trimmed reasoning when it
contains no such terminator. -/
theorem claim_C9 (chat : List Char → AgentFB.LlmMessage) (s : List Char)
    (hs : AgentFB.pyStrip s ≠ []) :
    (AgentFB.pyStrip (chat (AgentFB.pyStrip s)).content ≠ [] →
      AgentFB.correctSentences chat ("thinking".data) [s] =
        [(AgentFB.pyStrip (chat (AgentFB.pyStrip s)).content,
          if (AgentFB.pyStrip ((chat (AgentFB.pyStrip s)).reasoningContent.getD [])).isEmpty
            then none
            else some (AgentFB.pyStrip ((chat (AgentFB.pyStrip s)).reasoningContent.getD [])))]) ∧
    (AgentFB.pyStrip (chat (AgentFB.pyStrip s)).content = [] →
      AgentFB.pyStrip ((chat (AgentFB.pyStrip s)).reasoningContent.getD []) ≠ [] →
      AgentFB.correctSentences chat ("thinking".data) [s] =
        [((AgentFB.lastCompleteSentenceSpec
            (AgentFB.pyStrip ((chat (AgentFB.pyStrip s)).reasoningContent.getD []))).getD
            (AgentFB.pyStrip ((chat (AgentFB.pyStrip s)).reasoningContent.getD [])),
          some (AgentFB.pyStrip ((chat (AgentFB.pyStrip s)).reasoningContent.getD [])))]) := by
  have htext : (AgentFB.pyStrip s).isEmpty = false := by
    cases h : (AgentFB.pyStrip s).isEmpty with
    | true => exact absurd (List.isEmpty_iff.mp h) hs
    | false => rfl
  constructor
  · intro h1
    simp [AgentFB.correctSentences, hs, h1]
  · intro h1 h2
    have hf1 : (AgentFB.lastCompleteSentenceSpec
        (AgentFB.pyStrip ((chat (AgentFB.pyStrip s)).reasoningContent.getD []))).getD
        (AgentFB.pyStrip
          ((chat (AgentFB.pyStrip s)).reasoningContent.getD [])) ≠ [] := by
      cases hspec : AgentFB.lastCompleteSentenceSpec
          (AgentFB.pyStrip ((chat (AgentFB.pyStrip s)).reasoningContent.getD [])) with
      | some seg =>
        simp only [Option.getD_some]
        exact lastCompleteSentenceSpec_ne_nil hspec
      | none =>
        simp only [Option.getD_none]
        exact h2
    simp [AgentFB.correctSentences, hs, h1, h2, lastCompleteSentence_eq,
      pyStrip_idem, hf1]

/-- Claim C9 (witness): the amended theorem at concrete backends — one with
non-blank content ("Fixed it.") and one with whitespace-only content whose
reasoning trace ends in an incomplete sentence. -/
theorem claim_C9_witness :
    AgentFB.correctSentences AgentFB.c9chatB ("thinking".data) ["Hi me".data] =
      [(AgentFB.pyStrip (AgentFB.c9chatB (AgentFB.pyStrip ("Hi me".data))).content,
        if (AgentFB.pyStrip ((AgentFB.c9chatB
            (AgentFB.pyStrip ("Hi me".data))).reasoningContent.getD [])).isEmpty
          then none
          else some (AgentFB.pyStrip ((AgentFB.c9chatB
            (AgentFB.pyStrip ("Hi me".data))).reasoningContent.getD [])))] ∧
    AgentFB.correctSentences AgentFB.c9chat ("thinking".data) ["Hi me".data] =
      [((AgentFB.lastCompleteSentenceSpec
          (AgentFB.pyStrip ((AgentFB.c9chat
            (AgentFB.pyStrip ("Hi me".data))).reasoningContent.getD []))).getD
          (AgentFB.pyStrip ((AgentFB.c9chat
            (AgentFB.pyStrip ("Hi me".data))).reasoningContent.getD [])),
        some (AgentFB.pyStrip ((AgentFB.c9chat
          (AgentFB.pyStrip ("Hi me".data))).reasoningContent.getD [])))] :=
  ⟨(claim_C9 AgentFB.c9chatB ("Hi me".data) (by decide)).1 (by decide),
   (claim_C9 AgentFB.c9chat ("Hi me".data) (by decide)).2 (by decide) (by decide)⟩
